import Mathlib

/-!
# hanbase: the realtime hub and the request guards

## `internal/realtime/broadcast.go`

A shallow embedding of `Hub.Run`.  The Go program keeps

* `h.clients : map[string]map[*Client]bool`, the registry, and
* the `Client` objects the registry points to, each with a `ProjectID`
  and a buffered channel `Send`.

A `*Client` pointer is a `ClientId`; the objects live in a heap
`ClientId → Client`.  A Go map indexed by strings is a function
`String → Option _` (the code only ever indexes the outer map), the inner
`map[*Client]bool` is a finite set of pointers.  A run-time panic (closing
a closed channel, sending on a closed channel) is the result `none`.

The only send on the unexported `register` channel is in `RealtimeEndpoint`, on a
client it has just built with an open channel.  The states of the hub are
therefore the states the loop goes through, from the empty registry, on requests
whose `register` requests carry a client with an open channel (`registersOpen`);
unregister and publish requests are arbitrary.

The loop of `ListenToPostgres` is a function from the results of
`WaitForNotification` to the messages sent to the hub; the JSON decoder of
`encoding/json` is a parameter.

## `internal/auth/auth.go`, `internal/admin/project.go`, `internal/api/routes.go`

`TenantProtected`, `isValidSlug`, `isValidIdentifier`, the two project handlers
and `handleUpdate` are functions from what they read of the request and of the
database to their answer and the statements they issue; `jwt.Parse` and the
database are parameters.
-/

namespace Hanbase

/-- A `*Client` pointer. -/
abbrev ClientId := Nat

/-- A `[]byte` payload, one number per byte. -/
abbrev Payload := List Nat

/-- A buffered `chan []byte`: the pending elements (oldest first), the
capacity given to `make`, and whether `close` has been called. -/
structure Chan where
  buf : List Payload
  cap : Nat
  closed : Bool
deriving DecidableEq, Repr

/-- The fields of `Client` that `Hub.Run` reads or writes. -/
structure Client where
  ProjectID : String
  Send : Chan
deriving DecidableEq, Repr

/-- A `Message` on the `broadcast` channel. -/
structure Message where
  ProjectID : String
  Payload : Payload
deriving DecidableEq, Repr

/-- The memory holding the `Client` objects. -/
abbrev Heap := ClientId → Client

/-- The type of `h.clients`. -/
abbrev Registry := String → Option (Finset ClientId)

/-- The registry together with the client objects it refers to. -/
structure HubState where
  clients : Registry
  heap : Heap

/-- Assignment `m[key] = v` on the outer map. -/
def setKey (m : Registry) (key : String) (v : Finset ClientId) : Registry :=
  fun k => if k = key then some v else m k

/-- Replace the channel state of the object `client` points to. -/
def setSend (heap : Heap) (client : ClientId) (ch : Chan) : Heap :=
  fun c => if c = client then { heap c with Send := ch } else heap c

/-- `MainHub` at start-up: `clients` is an empty map. -/
def emptyHub (heap : Heap) : HubState :=
  { clients := fun _ => none, heap := heap }

/-- The `register` branch of `Hub.Run` (lines 48-54): when the project has no
entry an empty inner map is stored first (line 51); then the client becomes a
key of the inner map (line 53). -/
def register (st : HubState) (client : ClientId) : HubState :=
  let pid := (st.heap client).ProjectID
  match st.clients pid with
  | some set => { st with clients := setKey st.clients pid (insert client set) }
  | none => { st with clients := setKey (setKey st.clients pid ∅) pid (insert client ∅) }

/-- Builtin `close(ch)`: panics when the channel is already closed. -/
def closeChan (ch : Chan) : Option Chan :=
  if ch.closed then none else some { ch with closed := true }

/-- The `unregister` branch of `Hub.Run` (lines 56-64). -/
def unregister (st : HubState) (client : ClientId) : Option HubState :=
  let pid := (st.heap client).ProjectID
  match st.clients pid with
  | some set =>
    if client ∈ set then
      match closeChan (st.heap client).Send with
      | some ch =>
        some { clients := setKey st.clients pid (set.erase client),
               heap := setSend st.heap client ch }
      | none => none
    else some st
  | none => some st

/-- One iteration of the loop at lines 69-76: the non-blocking send
`select { case client.Send <- payload: default: ... }`.  A send on a closed
channel panics; a send on an open channel with room appends to the buffer;
otherwise the `default` branch closes the channel and deletes the client
from the set being ranged over. -/
def sendOrEvict (payload : Payload) (client : ClientId) :
    Option (Heap × Finset ClientId) → Option (Heap × Finset ClientId)
  | none => none
  | some (heap, clients) =>
    let ch := (heap client).Send
    if ch.closed then none
    else if ch.buf.length < ch.cap then
      some (setSend heap client { ch with buf := ch.buf ++ [payload] }, clients)
    else
      some (setSend heap client { ch with closed := true }, clients.erase client)

/-- The loop body commutes with itself: the order in which `range` visits
the keys of the Go map does not matter. -/
instance sendOrEvict_leftComm (payload : Payload) :
    LeftCommutative (sendOrEvict payload) where
  left_comm := by
    intro a b acc
    by_cases hab : a = b
    · subst hab; rfl
    · have hba : b ≠ a := fun h => hab h.symm
      cases acc with
      | none => rfl
      | some p =>
        obtain ⟨heap, clients⟩ := p
        simp only [sendOrEvict]
        by_cases hb : ((heap b).Send.closed = true) <;>
        by_cases ha : ((heap a).Send.closed = true) <;>
        by_cases hbl : (heap b).Send.buf.length < (heap b).Send.cap <;>
        by_cases hal : (heap a).Send.buf.length < (heap a).Send.cap <;>
        simp [sendOrEvict, setSend, hab, hba, ha, hb, hbl, hal, Finset.erase_right_comm] <;>
        (funext c; by_cases hca : c = a <;> by_cases hcb : c = b <;> simp_all [setSend])

/-- The `broadcast` branch of `Hub.Run` (lines 66-78). -/
def broadcast (st : HubState) (message : Message) : Option HubState :=
  match st.clients message.ProjectID with
  | some clients =>
    match Multiset.foldr (sendOrEvict message.Payload) (some (st.heap, clients)) clients.val with
    | some (heap, clients') =>
      some { clients := setKey st.clients message.ProjectID clients', heap := heap }
    | none => none
  | none => some st

/-- What the control loop receives from one of its three channels. -/
inductive Request where
  | register (client : ClientId)
  | unregister (client : ClientId)
  | broadcast (message : Message)
deriving DecidableEq, Repr

/-- One turn of the `for { select { ... } }` loop of `Hub.Run`. -/
def step (st : HubState) : Request → Option HubState
  | .register client => some (register st client)
  | .unregister client => unregister st client
  | .broadcast message => broadcast st message

/-- The loop run on a list of requests; `none` once a step has panicked. -/
def run (st : HubState) : List Request → Option HubState
  | [] => some st
  | r :: rs => (step st r).bind fun st' => run st' rs

/-- The states the loop goes through on a list of requests, the starting
state first, up to the first step that panics. -/
def states (st : HubState) : List Request → List HubState
  | [] => [st]
  | r :: rs =>
    st :: match step st r with
      | some st' => states st' rs
      | none => []

/-- Is `client` a key of the set stored under `project`? -/
def isMember (st : HubState) (project : String) (client : ClientId) : Bool :=
  match st.clients project with
  | some set => decide (client ∈ set)
  | none => false

/-- What one iteration of the broadcast loop does to a client object whose
channel is open. -/
def delivered (payload : Payload) (cl : Client) : Client :=
  if cl.Send.buf.length < cl.Send.cap then
    { cl with Send := { cl.Send with buf := cl.Send.buf ++ [payload] } }
  else { cl with Send := { cl.Send with closed := true } }

/-- The state a broadcast leaves behind when the project has the entry
`clients` and no channel in it is closed: every client of the set went
through one loop iteration, and the clients whose buffer had no room were
deleted from the set. -/
def broadcastResult (st : HubState) (message : Message) (clients : Finset ClientId) :
    HubState :=
  { clients := setKey st.clients message.ProjectID
      (clients.filter fun c => (st.heap c).Send.buf.length < (st.heap c).Send.cap),
    heap := fun c => if c ∈ clients then delivered message.Payload (st.heap c) else st.heap c }

/-- Registry invariant of the data model: a client is a key only of the
set stored under its own `ProjectID`. -/
def RegistryInv (st : HubState) : Prop :=
  ∀ project client, isMember st project client = true →
    project = (st.heap client).ProjectID

/-- No client registered under `project` has a closed `Send` channel. -/
def MembersOpen (st : HubState) (project : String) : Prop :=
  ∀ client, isMember st project client = true → (st.heap client).Send.closed = false

/-- The `Client` built by `RealtimeEndpoint` (lines 141-146):
`Send: make(chan []byte, 256)`. -/
def newClient (projectID : String) : Client :=
  { ProjectID := projectID, Send := { buf := [], cap := 256, closed := false } }

/-- A hub with three clients as in the spec's example: `0` and `1` belong
to project "shop", `2` to project "blog"; all freshly built. -/
def shopBlogHeap : Heap := fun c =>
  if c = 2 then newClient "blog" else newClient "shop"

/-- The spec's example hub: clients 0 and 1 registered under "shop", client 2
under "blog", from the empty registry. -/
def threeRegistered : HubState :=
  register (register (register (emptyHub shopBlogHeap) 0) 1) 2

/-- The state the loop is in after a list of requests, from the empty registry
(the empty hub itself if the loop panicked on the way). -/
def stateAfter (heap : Heap) (reqs : List Request) : HubState :=
  (run (emptyHub heap) reqs).getD (emptyHub heap)

/-- Clients of project "shop" with queues of capacity 2 (the capacity of the
spec's example): the queue of client 0 already holds two undrained payloads, the
others are empty. -/
def fullHeap : Heap := fun c =>
  { ProjectID := "shop",
    Send := { buf := if c = 0 then [[1], [2]] else [], cap := 2, closed := false } }

/-- Clients 0 and 1 of `fullHeap` registered. -/
def fullRegistered : HubState :=
  register (register (emptyHub fullHeap) 0) 1

/-- Clients 0 ("shop") and 2 ("blog") registered; client 1 ("shop") is not. -/
def twoRegistered : HubState :=
  register (register (emptyHub shopBlogHeap) 0) 2

/-- The control loop fed only with messages from the `broadcast` channel. -/
def publishAll (st : HubState) (messages : List Message) : Option HubState :=
  run st (messages.map Request.broadcast)

/-- The spec's example: "X" then "Y" published to "shop". -/
def shopXY : List Message := [⟨"shop", [88]⟩, ⟨"shop", [89]⟩]

/-- The state of the spec's example hub after "X" and "Y" were published to
"shop". -/
def afterXY : HubState :=
  (publishAll threeRegistered shopXY).getD threeRegistered

/-- A list of payloads published one after the other to one project. -/
def publishTo (st : HubState) (project : String) (payloads : List Payload) :
    Option HubState :=
  publishAll st (payloads.map fun p => { ProjectID := project, Payload := p })

/-- The spec's second example: client 0 (session A) of "shop" has an empty queue
of capacity 2, every other client of "shop" an empty queue of capacity 256. -/
def capTwoHeap : Heap := fun c =>
  { ProjectID := "shop", Send := { buf := [], cap := if c = 0 then 2 else 256, closed := false } }

/-- Clients 0 and 1 of `capTwoHeap` registered. -/
def capTwoRegistered : HubState :=
  register (register (emptyHub capTwoHeap) 0) 1

/-- Does every `register` request of the list carry a client whose `Send`
channel is open at the moment the loop receives it?  Requests after a panic
are never received. -/
def registersOpen : HubState → List Request → Bool
  | _, [] => true
  | st, r :: rs =>
    (match r with
      | .register client => !(st.heap client).Send.closed
      | _ => true) &&
    (match step st r with
      | some st' => registersOpen st' rs
      | none => true)
/-- Requests of the spec's example with a session leaving twice: three
registrations, a publish, client 1 unregistered by both of its tasks, a publish. -/
def exampleRequests : List Request :=
  [.register 0, .register 1, .register 2, .broadcast ⟨"shop", [88]⟩, .unregister 1,
    .unregister 1, .broadcast ⟨"shop", [89]⟩]

/-- The state after `exampleRequests`. -/
def afterExample : HubState := stateAfter shopBlogHeap exampleRequests

/-- A JSON value as `encoding/json` decodes it.  Numbers keep their literal:
the listener never reads one.  The members of an object are in document
order. -/
inductive JsonValue where
  | null
  | bool (b : Bool)
  | number (literal : String)
  | string (s : String)
  | array (items : List JsonValue)
  | object (members : List (String × JsonValue))

/-- The JSON decoder of `encoding/json`, not part of this repository: the value
a text denotes, `none` for a text that is not valid JSON. -/
abbrev JsonDecoder := Payload → Option JsonValue

/-- Indexing `m[key]` of the `map[string]interface{}` that `json.Unmarshal` fills
from the members of an object: members are stored in document order, so a later
member with the same name replaces an earlier one. -/
def mapIndex (key : String) : List (String × JsonValue) → Option JsonValue
  | [] => none
  | (k, v) :: rest =>
    match mapIndex key rest with
    | some later => some later
    | none => if k = key then some v else none

/-- `json.Unmarshal(data, &payload)` for `payload map[string]interface{}`
(line 110): an error (`none`) for invalid JSON and for a value that is neither an
object nor `null`; `null` leaves the map nil, which indexes like an empty map. -/
def unmarshalMap (decode : JsonDecoder) (data : Payload) :
    Option (List (String × JsonValue)) :=
  match decode data with
  | some (.object members) => some members
  | some .null => some []
  | _ => none

/-- What `WaitForNotification` returns (line 101): an error, or a notification
with its payload. -/
inductive WaitResult where
  | error
  | notification (payload : Payload)

/-- One turn of the loop of `ListenToPostgres` (lines 101-124): the message sent
on `MainHub.broadcast`, or `none` when the turn ends in a `continue`. -/
def listenOne (decode : JsonDecoder) : WaitResult → Option Message
  | .error => none
  | .notification payload =>
    match unmarshalMap decode payload with
    | none => none
    | some m =>
      match mapIndex "schema" m with
      | some (.string projectID) => some { ProjectID := projectID, Payload := payload }
      | _ => none

/-- The loop of `ListenToPostgres` on a list of results of `WaitForNotification`:
the messages sent to the hub, in the order they were sent, after those of
`sent`. -/
def listen (decode : JsonDecoder) : List WaitResult → List Message → List Message
  | [], sent => sent
  | r :: rs, sent =>
    match listenOne decode r with
    | some message => listen decode rs (sent ++ [message])
    | none => listen decode rs sent

/-- The spec's reading of a well-formed notification: the payload is a JSON
object with a string-valued "schema" member; the result is that string. -/
def schemaOf (decode : JsonDecoder) (payload : Payload) : Option String :=
  match decode payload with
  | some (.object members) =>
    match mapIndex "schema" members with
    | some (.string v) => some v
    | _ => none
  | _ => none

/-- The bytes of `{"schema":"shop"}`. -/
def shopPayload : Payload :=
  [123, 34, 115, 99, 104, 101, 109, 97, 34, 58, 34, 115, 104, 111, 112, 34, 125]

/-- The bytes of `[1]`. -/
def arrayPayload : Payload := [91, 49, 93]

/-- The bytes of `{"schema":7}`. -/
def numberSchemaPayload : Payload :=
  [123, 34, 115, 99, 104, 101, 109, 97, 34, 58, 55, 125]

/-- The bytes of `{"table":"t"}`. -/
def noSchemaPayload : Payload :=
  [123, 34, 116, 97, 98, 108, 101, 34, 58, 34, 116, 34, 125]

/-- The bytes of `{oops`. -/
def brokenPayload : Payload := [123, 111, 111, 112, 115]

/-- A decoder for the examples: it knows the four JSON texts above and takes
every other text for invalid JSON. -/
def exampleDecoder : JsonDecoder := fun data =>
  if data = shopPayload then some (.object [("schema", .string "shop")])
  else if data = arrayPayload then some (.array [.number "1"])
  else if data = numberSchemaPayload then some (.object [("schema", .number "7")])
  else if data = noSchemaPayload then some (.object [("table", .string "t")])
  else none

/-- The claims of a token, `jwt.MapClaims`: a `map[string]interface{}` decoded
from the JSON of the token. -/
abbrev MapClaims := String → Option JsonValue

/-- The fields of `*jwt.Token` the middleware reads: `Valid`, and `Claims`,
which is `some` map when its dynamic type is `jwt.MapClaims`. -/
structure Token where
  Valid : Bool
  Claims : Option MapClaims

/-- The call `jwt.Parse(tokenString, keyFunc)` with the key `SecretKey`, from a
library outside this repository: `none` when it returns an error. -/
abbrev JwtParse := Payload → Option Token

/-- What the middleware reads from the request: the bytes of the
`Authorization` header and the `:project` route parameter. -/
structure TenantRequest where
  authorization : Payload
  project : String

/-- The values stored with `c.Locals`. -/
structure Locals where
  user_id : Option JsonValue
  project_id : String

/-- How the middleware ends: a JSON error answer with its status, or `c.Next()`
with the locals it has set. -/
inductive Outcome where
  | reject (status : Nat) (error : String)
  | next (locals : Locals)

/-- The bytes of "Bearer ". -/
def bearer : Payload := [66, 101, 97, 114, 101, 114, 32]

/-- The handler returned by `TenantProtected` (lines 91-138). -/
def TenantProtected (parse : JwtParse) (c : TenantRequest) : Outcome :=
  let authHeader := c.authorization
  if authHeader = [] then .reject 401 "Unauthorized"
  else if authHeader.length > 7 ∧ authHeader.take 7 = bearer then
    let tokenString := authHeader.drop 7
    match parse tokenString with
    | none => .reject 401 "Invalid or expired token"
    | some token =>
      if !token.Valid then .reject 401 "Invalid or expired token"
      else
        match token.Claims with
        | none => .reject 401 "Invalid token claims"
        | some claims =>
          match claims "role" with
          | some (.string "admin") =>
            .next { user_id := claims "sub", project_id := c.project }
          | _ =>
            let requestedProject := c.project
            match claims "aud" with
            | some (.string tokenProject) =>
              if requestedProject ≠ tokenProject then
                .reject 403 "Access denied: Token not valid for this project"
              else .next { user_id := claims "sub", project_id := tokenProject }
            | _ => .reject 403 "Access denied: Token not valid for this project"
  else .reject 401 "Malformed token"

/-- A request carries a validly signed, unexpired bearer token with the claims
`claims`: the header is "Bearer " followed by a text that `jwt.Parse` accepts. -/
def ValidBearer (parse : JwtParse) (c : TenantRequest) (claims : MapClaims) : Prop :=
  c.authorization.length > 7 ∧ c.authorization.take 7 = bearer ∧
    ∃ token, parse (c.authorization.drop 7) = some token ∧ token.Valid = true ∧
      token.Claims = some claims

/-- The claims of a tenant token for project "shop": no role, aud "shop". -/
def shopClaims : MapClaims := fun key =>
  if key = "aud" then some (.string "shop")
  else if key = "sub" then some (.string "u1")
  else none

/-- A token parser for the examples: the text "tok" is a valid token with the
claims `shopClaims`, every other text is rejected. -/
def exampleJwtParse : JwtParse := fun tokenString =>
  if tokenString = [116, 111, 107] then some { Valid := true, Claims := some shopClaims }
  else none

/-- The header "Bearer tok" on the route of project "shop". -/
def shopRequest : TenantRequest :=
  { authorization := bearer ++ [116, 111, 107], project := "shop" }

/-- The header "Bearer tok" on the route of project "blog". -/
def blogRequest : TenantRequest :=
  { authorization := bearer ++ [116, 111, 107], project := "blog" }

/-- The test of the loops of `isValidSlug` and `isValidIdentifier` (lines 138 and
174): the rune is neither a lower-case letter, nor an upper-case letter, nor a
digit, nor the underscore.  A Go string is a `String` here, `range` yields its
characters and `len` is its size in bytes. -/
def badRune (r : Char) : Bool :=
  (decide (r < 'a') || decide (r > 'z')) && (decide (r < 'A') || decide (r > 'Z')) &&
    (decide (r < '0') || decide (r > '9')) && r != '_'

/-- The loop `for _, r := range s` with its early `return false`. -/
def runesValid : List Char → Bool
  | [] => true
  | r :: rs => if badRune r then false else runesValid rs

/-- The function `isValidSlug` (admin/project.go, lines 133-143). -/
def isValidSlug (s : String) : Bool :=
  if s.utf8ByteSize = 0 ∨ s.utf8ByteSize > 63 then false
  else runesValid s.data

/-- The function `isValidIdentifier` (api/routes.go, lines 172-179). -/
def isValidIdentifier (s : String) : Bool :=
  runesValid s.data

/-- The spec's character class: an ASCII letter, an ASCII digit or the
underscore. -/
def slugChar (c : Char) : Prop :=
  ('a' ≤ c ∧ c ≤ 'z') ∨ ('A' ≤ c ∧ c ≤ 'Z') ∨ ('0' ≤ c ∧ c ≤ '9') ∨ c = '_'

/-- What the handlers see of the database: whether `db.Pool.Begin` succeeds,
whether `tx.Exec` succeeds on a statement with its arguments, and whether
`tx.Commit` succeeds. -/
structure Db where
  beginOk : Bool
  execOk : String → List String → Bool
  commitOk : Bool

/-- The body of a project creation request, as `c.BodyParser` fills it. -/
structure CreateRequest where
  Name : String
  Slug : String

/-- The statement that creates the users table of a schema (lines 54-62). -/
def authTableSQL (schemaName : String) : String :=
  "\n\t\tCREATE TABLE IF NOT EXISTS " ++ schemaName ++
    ".users (\n\t\t\tid UUID PRIMARY KEY DEFAULT gen_random_uuid(),\n\t\t\temail TEXT NOT NULL UNIQUE,\n\t\t\tpassword_hash TEXT NOT NULL,\n\t\t\tcreated_at TIMESTAMP WITH TIME ZONE DEFAULT NOW(),\n\t\t\tupdated_at TIMESTAMP WITH TIME ZONE DEFAULT NOW()\n\t\t);\n\t"

/-- The loop of `handleUpdate` (lines 123-130) over the entries of the body, in
the order `range` yields them, from the current `updates`, `values` and `i`:
`none` when a key fails `isValidIdentifier` (the handler returns 400), the
final `updates`, `values` and `i` otherwise. -/
def updateLoop : List (String × JsonValue) → List String × List JsonValue × Nat →
    Option (List String × List JsonValue × Nat)
  | [], acc => some acc
  | (k, v) :: rest, (updates, values, i) =>
    if !isValidIdentifier k then none
    else updateLoop rest (updates ++ [k ++ " = $" ++ toString i], values ++ [v], i + 1)

/-- How `handleUpdate` ends: the HTTP status and the queries passed to
`db.Pool.QueryRow`, each with its bound values. -/
structure UpdateAnswer where
  status : Nat
  issued : List (String × List JsonValue)

/-- The function `handleUpdate` (lines 103-151).  `id` is the query parameter,
`body` the entries of the parsed body in the order the map is ranged over
(`none` when `c.BodyParser` fails), `queryOk` whether the query and the scan of
its row succeed. -/
def handleUpdate (queryOk : String → List JsonValue → Bool) (id : String)
    (body : Option (List (String × JsonValue))) (fullTableName : String) : UpdateAnswer :=
  if id = "" then { status := 400, issued := [] }
  else
    match body with
    | none => { status := 400, issued := [] }
    | some entries =>
      match updateLoop entries ([], [], 1) with
      | none => { status := 400, issued := [] }
      | some (updates, values, i) =>
        let values := values ++ [JsonValue.string id]
        let query := "UPDATE " ++ fullTableName ++ " SET " ++ ", ".intercalate updates ++
          " WHERE id = $" ++ toString i ++ " RETURNING to_jsonb(" ++ fullTableName ++ ".*)"
        if !queryOk query values then { status := 500, issued := [(query, values)] }
        else { status := 200, issued := [(query, values)] }

/-- The SET entries the spec describes for the entries of a body: the j-th key
(counting from 1) with the placeholder `$j`. -/
def setList (entries : List (String × JsonValue)) : List String :=
  (entries.enumFrom 1).map fun p => p.2.1 ++ " = $" ++ toString p.1

/-- The entries of the body `{"name":"Ann","age":7}`, ranged over in this
order. -/
def exampleEntries : List (String × JsonValue) :=
  [("name", .string "Ann"), ("age", .number "7")]

/-- The entries of a body with a key that is not an identifier. -/
def badEntries : List (String × JsonValue) :=
  [("name", .string "Ann"), ("age; DROP TABLE t", .number "7")]

/-- The clients carried by the `register` requests of a list, in order. -/
def registrations : List Request → List ClientId
  | [] => []
  | .register client :: rs => client :: registrations rs
  | .unregister _ :: rs => registrations rs
  | .broadcast _ :: rs => registrations rs
/-- A call a handler makes on the database: `db.Pool.Begin`, `tx.Exec` with a
statement and its arguments, `tx.Commit`, `tx.Rollback`. -/
inductive DbCall where
  | beginTx
  | exec (sql : String) (args : List String)
  | commitTx
  | rollbackTx
deriving DecidableEq, Repr

/-- How a handler ends: the HTTP status of its answer and the calls it has made
on the database, in order. -/
structure Answer where
  status : Nat
  calls : List DbCall
deriving DecidableEq, Repr

/-- The return of a handler after `defer tx.Rollback(...)` (project.go lines 27
and 112): the deferred call runs last. -/
def deferRollback (status : Nat) (calls : List DbCall) : Answer :=
  { status := status, calls := calls ++ [DbCall.rollbackTx] }

/-- The handler `CreateProjectHandler` (lines 12-75); `body` is `none` when
`c.BodyParser` fails.  The transaction is begun (line 23) before the slug is
tested (line 30). -/
def CreateProjectHandler (db : Db) (body : Option CreateRequest) : Answer :=
  match body with
  | none => { status := 400, calls := [] }
  | some req =>
    if !db.beginOk then { status := 500, calls := [.beginTx] }
    else if !isValidSlug req.Slug then deferRollback 400 [.beginTx]
    else
      let schemaName := req.Slug
      let insert := DbCall.exec
        "INSERT INTO baas_system.projects (name, slug, db_schema) VALUES ($1, $2, $3)"
        [req.Name, req.Slug, schemaName]
      if !db.execOk
          "INSERT INTO baas_system.projects (name, slug, db_schema) VALUES ($1, $2, $3)"
          [req.Name, req.Slug, schemaName] then
        deferRollback 500 [.beginTx, insert]
      else
        let create := DbCall.exec ("CREATE SCHEMA IF NOT EXISTS " ++ schemaName) []
        if !db.execOk ("CREATE SCHEMA IF NOT EXISTS " ++ schemaName) [] then
          deferRollback 500 [.beginTx, insert, create]
        else
          let table := DbCall.exec (authTableSQL schemaName) []
          if !db.execOk (authTableSQL schemaName) [] then
            deferRollback 500 [.beginTx, insert, create, table]
          else if !db.commitOk then
            deferRollback 500 [.beginTx, insert, create, table, .commitTx]
          else deferRollback 200 [.beginTx, insert, create, table, .commitTx]

/-- The handler `DeleteProjectHandler` (lines 102-131); `slug` is the route
parameter.  The slug is tested (line 104) before the transaction is begun
(line 108). -/
def DeleteProjectHandler (db : Db) (slug : String) : Answer :=
  if !isValidSlug slug then { status := 400, calls := [] }
  else if !db.beginOk then { status := 500, calls := [.beginTx] }
  else
    let delete := DbCall.exec "DELETE FROM baas_system.projects WHERE slug = $1" [slug]
    if !db.execOk "DELETE FROM baas_system.projects WHERE slug = $1" [slug] then
      deferRollback 500 [.beginTx, delete]
    else
      let drop := DbCall.exec ("DROP SCHEMA IF EXISTS " ++ slug ++ " CASCADE") []
      if !db.execOk ("DROP SCHEMA IF EXISTS " ++ slug ++ " CASCADE") [] then
        deferRollback 500 [.beginTx, delete, drop]
      else if !db.commitOk then deferRollback 500 [.beginTx, delete, drop, .commitTx]
      else deferRollback 200 [.beginTx, delete, drop, .commitTx]

/-- A database that is down: no transaction can be begun. -/
def dbDown : Db := { beginOk := false, execOk := fun _ _ => false, commitOk := false }

/-- A database on which everything succeeds. -/
def dbUp : Db := { beginOk := true, execOk := fun _ _ => true, commitOk := true }

theorem foldr_sendOrEvict_open (payload : Payload) (heap : Heap) (S : Finset ClientId)
    (M : Multiset ClientId) (hnd : M.Nodup)
    (hopen : ∀ c ∈ M, (heap c).Send.closed = false) :
    Multiset.foldr (sendOrEvict payload) (some (heap, S)) M =
      some (fun c => if c ∈ M then delivered payload (heap c) else heap c,
            S.filter fun c => c ∈ M → (heap c).Send.buf.length < (heap c).Send.cap) := by
  induction M using Multiset.induction_on with
  | empty => simp
  | cons a M ih =>
    rw [Multiset.nodup_cons] at hnd
    have ha : (heap a).Send.closed = false := hopen a (Multiset.mem_cons_self a M)
    rw [Multiset.foldr_cons, ih hnd.2 (fun c hc => hopen c (Multiset.mem_cons_of_mem hc))]
    simp only [sendOrEvict, if_neg hnd.1, ha]
    by_cases hlen : (heap a).Send.buf.length < (heap a).Send.cap
    · simp only [hlen, if_true, Bool.false_eq_true, if_false]
      congr 1
      refine Prod.ext ?_ ?_
      · funext c
        by_cases hca : c = a
        · subst hca; simp [setSend, delivered, hlen, hnd.1, ha]
        · simp [setSend, hca]
      · ext c
        simp only [Finset.mem_filter, Multiset.mem_cons]
        constructor
        · rintro ⟨h1, h2⟩
          refine ⟨h1, ?_⟩
          rintro (rfl | h)
          · exact hlen
          · exact h2 h
        · rintro ⟨h1, h2⟩
          exact ⟨h1, fun h => h2 (Or.inr h)⟩
    · simp only [hlen, if_false, Bool.false_eq_true]
      congr 1
      refine Prod.ext ?_ ?_
      · funext c
        by_cases hca : c = a
        · subst hca; simp [setSend, delivered, hlen, hnd.1, ha]
        · simp [setSend, hca]
      · ext c
        simp only [Finset.mem_filter, Multiset.mem_cons, Finset.mem_erase]
        constructor
        · rintro ⟨h0, h1, h2⟩
          refine ⟨h1, ?_⟩
          rintro (rfl | h)
          · exact absurd rfl h0
          · exact h2 h
        · rintro ⟨h1, h2⟩
          refine ⟨?_, h1, fun h => h2 (Or.inr h)⟩
          rintro rfl
          exact hlen (h2 (Or.inl rfl))

theorem foldr_sendOrEvict_closed (payload : Payload) (heap : Heap) (S : Finset ClientId)
    (M : Multiset ClientId) (hnd : M.Nodup)
    (hclosed : ∃ c ∈ M, (heap c).Send.closed = true) :
    Multiset.foldr (sendOrEvict payload) (some (heap, S)) M = none := by
  induction M using Multiset.induction_on with
  | empty => simp at hclosed
  | cons a M ih =>
    rw [Multiset.nodup_cons] at hnd
    rw [Multiset.foldr_cons]
    by_cases hM : ∃ c ∈ M, (heap c).Send.closed = true
    · rw [ih hnd.2 hM]; rfl
    · have hopen : ∀ c ∈ M, (heap c).Send.closed = false := by
        intro c hc
        by_contra h
        exact hM ⟨c, hc, by simpa using h⟩
      obtain ⟨c, hc, hcl⟩ := hclosed
      rcases Multiset.mem_cons.1 hc with rfl | hc
      · rw [foldr_sendOrEvict_open payload heap S M hnd.2 hopen]
        simp [sendOrEvict, hnd.1, hcl]
      · exact absurd ⟨c, hc, hcl⟩ hM

theorem broadcast_absent (st : HubState) (m : Message)
    (h : st.clients m.ProjectID = none) : broadcast st m = some st := by
  simp [broadcast, h]

theorem broadcast_open (st : HubState) (m : Message) (S : Finset ClientId)
    (hS : st.clients m.ProjectID = some S)
    (hopen : ∀ c ∈ S, (st.heap c).Send.closed = false) :
    broadcast st m = some (broadcastResult st m S) := by
  have h := foldr_sendOrEvict_open m.Payload st.heap S S.val S.nodup hopen
  simp only [broadcast, hS, h, broadcastResult]
  have hf : (S.filter fun c => c ∈ S.val → (st.heap c).Send.buf.length < (st.heap c).Send.cap)
      = S.filter fun c => (st.heap c).Send.buf.length < (st.heap c).Send.cap :=
    Finset.filter_congr fun c hc => by
      have hc' : c ∈ S.val := hc
      simp [hc']
  rw [hf]
  rfl

theorem broadcast_closed (st : HubState) (m : Message) (S : Finset ClientId)
    (hS : st.clients m.ProjectID = some S)
    (hclosed : ∃ c ∈ S, (st.heap c).Send.closed = true) :
    broadcast st m = none := by
  have h := foldr_sendOrEvict_closed m.Payload st.heap S S.val S.nodup hclosed
  simp only [broadcast, hS, h]

theorem broadcast_cases (st : HubState) (m : Message) :
    (st.clients m.ProjectID = none ∧ broadcast st m = some st) ∨
    (∃ S, st.clients m.ProjectID = some S ∧ (∀ c ∈ S, (st.heap c).Send.closed = false) ∧
      broadcast st m = some (broadcastResult st m S)) ∨
    (∃ S, st.clients m.ProjectID = some S ∧ (∃ c ∈ S, (st.heap c).Send.closed = true) ∧
      broadcast st m = none) := by
  cases hS : st.clients m.ProjectID with
  | none => exact Or.inl ⟨rfl, broadcast_absent st m hS⟩
  | some S =>
    by_cases hcl : ∃ c ∈ S, (st.heap c).Send.closed = true
    · exact Or.inr (Or.inr ⟨S, rfl, hcl, broadcast_closed st m S hS hcl⟩)
    · have hopen : ∀ c ∈ S, (st.heap c).Send.closed = false := by
        intro c hc
        by_contra h
        exact hcl ⟨c, hc, by simpa using h⟩
      exact Or.inr (Or.inl ⟨S, rfl, hopen, broadcast_open st m S hS hopen⟩)

theorem isMember_setKey (st : HubState) (heap : Heap) (key : String) (v : Finset ClientId)
    (project : String) (c : ClientId) :
    isMember { clients := setKey st.clients key v, heap := heap } project c =
      if project = key then decide (c ∈ v) else isMember st project c := by
  by_cases h : project = key <;> simp [isMember, setKey, h]

theorem isMember_iff (st : HubState) (project : String) (c : ClientId) :
    isMember st project c = true ↔ ∃ S, st.clients project = some S ∧ c ∈ S := by
  cases h : st.clients project <;> simp [isMember, h]

theorem register_heap (st : HubState) (s : ClientId) : (register st s).heap = st.heap := by
  unfold register
  cases h : st.clients (st.heap s).ProjectID <;> simp [h, setKey]

theorem isMember_register (st : HubState) (s : ClientId) (project : String) (c : ClientId) :
    isMember (register st s) project c =
      if project = (st.heap s).ProjectID ∧ c = s then true else isMember st project c := by
  unfold register
  cases h : st.clients (st.heap s).ProjectID with
  | none =>
    by_cases hp : project = (st.heap s).ProjectID
    · subst hp; by_cases hc : c = s <;> simp [isMember, setKey, h, hc]
    · simp [isMember, setKey, h, hp]
  | some S =>
    by_cases hp : project = (st.heap s).ProjectID
    · subst hp; by_cases hc : c = s <;> simp [isMember, setKey, h, hc]
    · simp [isMember, setKey, h, hp]

theorem unregister_absent (st : HubState) (s : ClientId)
    (h : isMember st (st.heap s).ProjectID s = false) : unregister st s = some st := by
  cases hS : st.clients (st.heap s).ProjectID with
  | none => simp [unregister, hS]
  | some S =>
    have : s ∉ S := by simpa [isMember, hS] using h
    simp [unregister, hS, this]

theorem unregister_closed (st : HubState) (s : ClientId)
    (h : isMember st (st.heap s).ProjectID s = true)
    (hcl : (st.heap s).Send.closed = true) : unregister st s = none := by
  obtain ⟨S, hS, hs⟩ := (isMember_iff _ _ _).1 h
  simp [unregister, hS, hs, closeChan, hcl]

theorem unregister_open (st : HubState) (s : ClientId) (S : Finset ClientId)
    (hS : st.clients (st.heap s).ProjectID = some S) (hs : s ∈ S)
    (hop : (st.heap s).Send.closed = false) :
    unregister st s = some
      { clients := setKey st.clients (st.heap s).ProjectID (S.erase s),
        heap := setSend st.heap s { (st.heap s).Send with closed := true } } := by
  simp [unregister, hS, hs, closeChan, hop]

theorem delivered_ProjectID (payload : Payload) (cl : Client) :
    (delivered payload cl).ProjectID = cl.ProjectID := by
  unfold delivered; split <;> rfl

theorem register_ProjectID (st : HubState) (s c : ClientId) :
    ((register st s).heap c).ProjectID = (st.heap c).ProjectID := by
  rw [register_heap]

theorem unregister_ProjectID (st st' : HubState) (s : ClientId)
    (h : unregister st s = some st') (c : ClientId) :
    (st'.heap c).ProjectID = (st.heap c).ProjectID := by
  by_cases hm : isMember st (st.heap s).ProjectID s = true
  · obtain ⟨S, hS, hs⟩ := (isMember_iff _ _ _).1 hm
    cases hop : (st.heap s).Send.closed with
    | true => rw [unregister_closed st s hm hop] at h; cases h
    | false =>
      rw [unregister_open st s S hS hs hop] at h
      cases h
      by_cases hc : c = s <;> simp [setSend, hc]
  · rw [unregister_absent st s (by simpa using hm)] at h
    cases h; rfl

theorem broadcast_ProjectID (st st' : HubState) (m : Message)
    (h : broadcast st m = some st') (c : ClientId) :
    (st'.heap c).ProjectID = (st.heap c).ProjectID := by
  rcases broadcast_cases st m with ⟨_, h1⟩ | ⟨S, _, _, h1⟩ | ⟨S, _, _, h1⟩
  · rw [h1] at h; cases h; rfl
  · rw [h1] at h; cases h
    simp only [broadcastResult]
    split
    · exact delivered_ProjectID _ _
    · rfl
  · rw [h1] at h; cases h

theorem step_ProjectID (st st' : HubState) (r : Request)
    (h : step st r = some st') (c : ClientId) :
    (st'.heap c).ProjectID = (st.heap c).ProjectID := by
  cases r with
  | register s => simp only [step, Option.some.injEq] at h; subst h; exact register_ProjectID st s c
  | unregister s => exact unregister_ProjectID st st' s h c
  | broadcast m => exact broadcast_ProjectID st st' m h c

theorem register_inv (st : HubState) (s : ClientId) (hinv : RegistryInv st) :
    RegistryInv (register st s) := by
  intro project c hc
  rw [register_heap]
  rw [isMember_register] at hc
  by_cases hp : project = (st.heap s).ProjectID ∧ c = s
  · rw [hp.1, hp.2]
  · rw [if_neg hp] at hc
    exact hinv project c hc

theorem unregister_inv (st st' : HubState) (s : ClientId)
    (h : unregister st s = some st') (hinv : RegistryInv st) : RegistryInv st' := by
  intro project c hc
  rw [unregister_ProjectID st st' s h c]
  apply hinv
  by_cases hm : isMember st (st.heap s).ProjectID s = true
  · obtain ⟨S, hS, hs⟩ := (isMember_iff _ _ _).1 hm
    cases hop : (st.heap s).Send.closed with
    | true => rw [unregister_closed st s hm hop] at h; cases h
    | false =>
      rw [unregister_open st s S hS hs hop] at h
      cases h
      rw [isMember_setKey] at hc
      by_cases hp : project = (st.heap s).ProjectID
      · rw [if_pos hp] at hc
        rw [hp]
        exact (isMember_iff _ _ _).2 ⟨S, hS, Finset.mem_of_mem_erase (by simpa using hc)⟩
      · rw [if_neg hp] at hc; exact hc
  · rw [unregister_absent st s (by simpa using hm)] at h
    cases h; exact hc

theorem isMember_broadcastResult (st : HubState) (m : Message) (S : Finset ClientId)
    (hS : st.clients m.ProjectID = some S) (project : String) (c : ClientId) :
    isMember (broadcastResult st m S) project c =
      (isMember st project c &&
        (decide (project ≠ m.ProjectID) ||
          decide ((st.heap c).Send.buf.length < (st.heap c).Send.cap))) := by
  unfold broadcastResult
  rw [isMember_setKey]
  by_cases hp : project = m.ProjectID
  · subst hp
    simp only [if_true, isMember, hS, ne_eq, not_true_eq_false, decide_False, Bool.false_or]
    by_cases hc : c ∈ S <;>
      by_cases hl : (st.heap c).Send.buf.length < (st.heap c).Send.cap <;>
      simp [hc, hl]
  · simp [hp]

theorem broadcast_inv (st st' : HubState) (m : Message)
    (h : broadcast st m = some st') (hinv : RegistryInv st) : RegistryInv st' := by
  intro project c hc
  rw [broadcast_ProjectID st st' m h c]
  apply hinv
  rcases broadcast_cases st m with ⟨_, h1⟩ | ⟨S, hS, _, h1⟩ | ⟨S, _, _, h1⟩
  · rw [h1] at h; cases h; exact hc
  · rw [h1] at h; cases h
    rw [isMember_broadcastResult st m S hS] at hc
    simp only [Bool.and_eq_true] at hc
    exact hc.1
  · rw [h1] at h; cases h

theorem step_inv (st st' : HubState) (r : Request)
    (h : step st r = some st') (hinv : RegistryInv st) : RegistryInv st' := by
  cases r with
  | register s => simp only [step, Option.some.injEq] at h; subst h; exact register_inv st s hinv
  | unregister s => exact unregister_inv st st' s h hinv
  | broadcast m => exact broadcast_inv st st' m h hinv

theorem emptyHub_inv (heap : Heap) : RegistryInv (emptyHub heap) := by
  intro project c hc
  simp [isMember, emptyHub] at hc

theorem states_inv (reqs : List Request) :
    ∀ (st0 st : HubState), st ∈ states st0 reqs → RegistryInv st0 →
      RegistryInv st ∧ ∀ c, (st.heap c).ProjectID = (st0.heap c).ProjectID := by
  induction reqs with
  | nil =>
    intro st0 st hst hinv
    simp only [states, List.mem_singleton] at hst
    subst hst
    exact ⟨hinv, fun _ => rfl⟩
  | cons r rs ih =>
    intro st0 st hst hinv
    simp only [states, List.mem_cons] at hst
    rcases hst with rfl | hst
    · exact ⟨hinv, fun _ => rfl⟩
    · cases hstep : step st0 r with
      | none => simp [hstep] at hst
      | some st1 =>
        simp only [hstep] at hst
        obtain ⟨h1, h2⟩ := ih st1 st hst (step_inv st0 st1 r hstep hinv)
        exact ⟨h1, fun c => (h2 c).trans (step_ProjectID st0 st1 r hstep c)⟩

theorem run_mem_states (reqs : List Request) :
    ∀ (st0 st : HubState), run st0 reqs = some st → st ∈ states st0 reqs := by
  induction reqs with
  | nil =>
    intro st0 st h
    simp only [run, Option.some.injEq] at h
    subst h
    simp [states]
  | cons r rs ih =>
    intro st0 st h
    cases hstep : step st0 r with
    | none => simp [run, hstep] at h
    | some st1 =>
      simp only [run, hstep, Option.some_bind] at h
      simp only [states, hstep, List.mem_cons]
      exact Or.inr (ih st1 st h)

theorem run_inv (heap0 : Heap) (reqs : List Request) (st : HubState)
    (h : run (emptyHub heap0) reqs = some st) : RegistryInv st :=
  (states_inv reqs _ _ (run_mem_states reqs _ _ h) (emptyHub_inv heap0)).1

/-- C1. From the empty registry, in every state the control loop goes through on any
list of register/unregister/broadcast requests, a session's `ProjectID` is the one it
started with and the number of project sets that contain the session is 0 or 1; when it
is 1, the set is the one stored under the session's own `ProjectID`. -/
theorem C1_member_of_at_most_one_set (heap0 : Heap) (reqs : List Request) (st : HubState)
    (hst : st ∈ states (emptyHub heap0) reqs) (s : ClientId) :
    (st.heap s).ProjectID = (heap0 s).ProjectID ∧
    (Set.encard {project | isMember st project s = true} = 0 ∨
      (Set.encard {project | isMember st project s = true} = 1 ∧
        isMember st (heap0 s).ProjectID s = true)) := by
  obtain ⟨hinv, hpid⟩ := states_inv reqs _ _ hst (emptyHub_inv heap0)
  have hp : (st.heap s).ProjectID = (heap0 s).ProjectID := hpid s
  refine ⟨hp, ?_⟩
  by_cases hm : isMember st (heap0 s).ProjectID s = true
  · right
    refine ⟨?_, hm⟩
    have : {project | isMember st project s = true} = {(heap0 s).ProjectID} := by
      ext project
      simp only [Set.mem_setOf_eq, Set.mem_singleton_iff]
      constructor
      · intro h; rw [hinv project s h, hp]
      · rintro rfl; exact hm
    rw [this, Set.encard_singleton]
  · left
    rw [Set.encard_eq_zero]
    ext project
    simp only [Set.mem_setOf_eq, Set.mem_empty_iff_false, iff_false]
    intro h
    apply hm
    rw [← hp, ← hinv project s h]
    exact h

/-- C1 at the spec's example hub (clients 0, 1 and 2 registered), for client 0. -/
theorem C1_member_of_at_most_one_set_witness :
    threeRegistered ∈
        states (emptyHub shopBlogHeap) [.register 0, .register 1, .register 2] ∧
      (threeRegistered.heap 0).ProjectID = (shopBlogHeap 0).ProjectID ∧
      (Set.encard {project | isMember threeRegistered project 0 = true} = 0 ∨
        (Set.encard {project | isMember threeRegistered project 0 = true} = 1 ∧
          isMember threeRegistered (shopBlogHeap 0).ProjectID 0 = true)) :=
  have hmem : threeRegistered ∈
      states (emptyHub shopBlogHeap) [.register 0, .register 1, .register 2] :=
    run_mem_states _ _ _ rfl
  ⟨hmem, C1_member_of_at_most_one_set shopBlogHeap _ _ hmem 0⟩

theorem delivered_room (payload : Payload) (cl : Client)
    (h : cl.Send.buf.length < cl.Send.cap) :
    delivered payload cl =
      { cl with Send := { cl.Send with buf := cl.Send.buf ++ [payload] } } := by
  simp [delivered, h]

theorem delivered_full (payload : Payload) (cl : Client)
    (h : ¬ cl.Send.buf.length < cl.Send.cap) :
    delivered payload cl = { cl with Send := { cl.Send with closed := true } } := by
  simp [delivered, h]

/-- What a broadcast that returns has done: each client registered under the
message's project went through one loop iteration, nothing else moved, and none
of the channels sent on was closed. -/
theorem broadcast_effect (st st' : HubState) (m : Message)
    (h : broadcast st m = some st') :
    (∀ c, st'.heap c =
      if isMember st m.ProjectID c = true then delivered m.Payload (st.heap c)
      else st.heap c) ∧
    (∀ project c, isMember st' project c =
      (isMember st project c &&
        (decide (project ≠ m.ProjectID) ||
          decide ((st.heap c).Send.buf.length < (st.heap c).Send.cap)))) ∧
    MembersOpen st m.ProjectID := by
  rcases broadcast_cases st m with ⟨h0, h1⟩ | ⟨S, hS, hopen, h1⟩ | ⟨S, _, _, h1⟩
  · rw [h1] at h; cases h
    refine ⟨fun c => by simp [isMember, h0], fun project c => ?_, fun c hc => ?_⟩
    · by_cases hp : project = m.ProjectID
      · subst hp; simp [isMember, h0]
      · simp [hp]
    · simp [isMember, h0] at hc
  · rw [h1] at h; cases h
    refine ⟨fun c => ?_, fun project c => isMember_broadcastResult st m S hS project c,
      fun c hc => ?_⟩
    · by_cases hc : c ∈ S <;> simp [broadcastResult, isMember, hS, hc]
    · apply hopen; simpa [isMember, hS] using hc
  · rw [h1] at h; cases h

theorem broadcast_isSome (st : HubState) (m : Message)
    (hopen : MembersOpen st m.ProjectID) : ∃ st', broadcast st m = some st' := by
  rcases broadcast_cases st m with ⟨_, h1⟩ | ⟨S, _, _, h1⟩ | ⟨S, hS, ⟨c, hc, hcl⟩, _⟩
  · exact ⟨_, h1⟩
  · exact ⟨_, h1⟩
  · have := hopen c (by simp [isMember, hS, hc])
    rw [hcl] at this; cases this

theorem broadcast_panics (st : HubState) (m : Message) (c : ClientId)
    (hc : isMember st m.ProjectID c = true) (hcl : (st.heap c).Send.closed = true) :
    broadcast st m = none := by
  obtain ⟨S, hS, hcS⟩ := (isMember_iff _ _ _).1 hc
  exact broadcast_closed st m S hS ⟨c, hcS, hcl⟩

/-- A publish in a state where no client registered under the project has a closed
channel returns, and every client registered under the project with room in its buffer has
its previous buffer followed by the payload and stays registered. -/
theorem broadcast_delivers (st : HubState) (m : Message)
    (hopen : MembersOpen st m.ProjectID) :
    ∃ st', broadcast st m = some st' ∧
      ∀ s, isMember st m.ProjectID s = true →
        (st.heap s).Send.buf.length < (st.heap s).Send.cap →
          (st'.heap s).Send.buf = (st.heap s).Send.buf ++ [m.Payload] ∧
          (st'.heap s).Send.cap = (st.heap s).Send.cap ∧
          (st'.heap s).Send.closed = (st.heap s).Send.closed ∧
          isMember st' m.ProjectID s = true := by
  obtain ⟨st', h⟩ := broadcast_isSome st m hopen
  obtain ⟨hheap, hmem, _⟩ := broadcast_effect st st' m h
  refine ⟨st', h, fun s hs hroom => ?_⟩
  rw [hheap s, if_pos hs, delivered_room _ _ hroom, hmem, hs]
  simp [hroom]

theorem shopBlogHeap_open (c : ClientId) : (shopBlogHeap c).Send.closed = false := by
  unfold shopBlogHeap; split <;> rfl

theorem threeRegistered_open (project : String) : MembersOpen threeRegistered project := by
  intro c _
  simp only [threeRegistered, register_heap]
  exact shopBlogHeap_open c

/-- C3. A publish step for (P, payload) that returns leaves the client object (queue
contents, capacity, closed flag) and the membership in every project set of every session
not registered under P as they were; it returns whenever no session registered under P
has a closed queue; and when P has no entry in the registry it returns the state it was
given. -/
theorem C3_broadcast_frame (st : HubState) (m : Message) :
    (st.clients m.ProjectID = none → broadcast st m = some st) ∧
    (MembersOpen st m.ProjectID → ∃ st', broadcast st m = some st') ∧
    (∀ st', broadcast st m = some st' →
      ∀ s, isMember st m.ProjectID s = false →
        st'.heap s = st.heap s ∧
        ∀ project, isMember st' project s = isMember st project s) := by
  refine ⟨broadcast_absent st m, broadcast_isSome st m, fun st' h s hs => ?_⟩
  obtain ⟨hheap, hmem, _⟩ := broadcast_effect st st' m h
  refine ⟨by rw [hheap s]; simp [hs], fun project => ?_⟩
  rw [hmem]
  by_cases hp : project = m.ProjectID
  · subst hp; simp [hs]
  · simp [hp]

/-- C3 on the spec's example hub: publishing to "shop" leaves client 2 of "blog" alone, and
publishing to a project without entry returns the same state. -/
theorem C3_broadcast_frame_witness :
    broadcast threeRegistered ⟨"news", [88]⟩ = some threeRegistered ∧
    ∃ st', broadcast threeRegistered ⟨"shop", [88]⟩ = some st' ∧
      st'.heap 2 = threeRegistered.heap 2 ∧
      ∀ project, isMember st' project 2 = isMember threeRegistered project 2 :=
  have h := C3_broadcast_frame threeRegistered ⟨"shop", [88]⟩
  ⟨(C3_broadcast_frame threeRegistered ⟨"news", [88]⟩).1 (by decide),
    (h.2.1 (threeRegistered_open "shop")).elim fun st' hst' =>
      ⟨st', hst', h.2.2 st' hst' 2 (by decide)⟩⟩

/-- A publish in a state with the registry invariant where no client registered under
the project has a closed channel returns; a registered client whose buffer is full is
deleted and closed, the registered clients with room receive the payload. -/
theorem broadcast_evicts (st : HubState) (m : Message) (s : ClientId)
    (hinv : RegistryInv st) (hopen : MembersOpen st m.ProjectID)
    (hs : isMember st m.ProjectID s = true)
    (hfull : (st.heap s).Send.buf.length = (st.heap s).Send.cap) :
    ∃ st', broadcast st m = some st' ∧
      (∀ project, isMember st' project s = false) ∧
      (st'.heap s).Send.closed = true ∧
      (st'.heap s).Send.buf = (st.heap s).Send.buf ∧
      ∀ t, isMember st m.ProjectID t = true →
        (st.heap t).Send.buf.length < (st.heap t).Send.cap →
          (st'.heap t).Send.buf = (st.heap t).Send.buf ++ [m.Payload] ∧
          isMember st' m.ProjectID t = true := by
  obtain ⟨st', h⟩ := broadcast_isSome st m hopen
  obtain ⟨hheap, hmem, _⟩ := broadcast_effect st st' m h
  have hnr : ¬ (st.heap s).Send.buf.length < (st.heap s).Send.cap := by omega
  refine ⟨st', h, fun project => ?_, ?_, ?_, fun t ht hroom => ?_⟩
  · rw [hmem]
    by_cases hp : project = m.ProjectID
    · subst hp; simp [hnr]
    · have : isMember st project s = false := by
        by_contra hc
        have h1 := hinv project s (by simpa using hc)
        have h2 := hinv m.ProjectID s hs
        exact hp (h1.trans h2.symm)
      simp [this]
  · rw [hheap s, if_pos hs, delivered_full _ _ hnr]
  · rw [hheap s, if_pos hs, delivered_full _ _ hnr]
  · rw [hheap t, if_pos ht, delivered_room _ _ hroom, hmem, ht]
    simp [hroom]

theorem fullRegistered_inv : RegistryInv fullRegistered :=
  run_inv fullHeap [.register 0, .register 1] fullRegistered rfl

theorem fullRegistered_open (project : String) : MembersOpen fullRegistered project := by
  intro c _
  simp only [fullRegistered, register_heap]
  rfl

theorem unregister_member (st : HubState) (s : ClientId)
    (hs : isMember st (st.heap s).ProjectID s = true)
    (hop : (st.heap s).Send.closed = false) :
    ∃ S, st.clients (st.heap s).ProjectID = some S ∧ s ∈ S ∧
      unregister st s = some
        { clients := setKey st.clients (st.heap s).ProjectID (S.erase s),
          heap := setSend st.heap s { (st.heap s).Send with closed := true } } := by
  obtain ⟨S, hS, hsS⟩ := (isMember_iff _ _ _).1 hs
  exact ⟨S, hS, hsS, unregister_open st s S hS hsS hop⟩

/-- After an unregister step that returns, the client is not in the set of its
project. -/
theorem unregister_not_member (st st1 : HubState) (s : ClientId)
    (h : unregister st s = some st1) :
    isMember st1 (st1.heap s).ProjectID s = false := by
  rw [unregister_ProjectID st st1 s h s]
  by_cases hm : isMember st (st.heap s).ProjectID s = true
  · cases hop : (st.heap s).Send.closed with
    | true => rw [unregister_closed st s hm hop] at h; cases h
    | false =>
      obtain ⟨S, _, _, h1⟩ := unregister_member st s hm hop
      rw [h1] at h; cases h
      rw [isMember_setKey]
      simp
  · have hm' : isMember st (st.heap s).ProjectID s = false := by simpa using hm
    rw [unregister_absent st s hm'] at h
    cases h; exact hm'

/-- Unregistering a registered client with an open channel, in a state with the registry
invariant: the step returns, the client is in no set, its channel is closed, and nothing
else has moved. -/
theorem unregister_removes (st : HubState) (s : ClientId)
    (hinv : RegistryInv st)
    (hs : isMember st (st.heap s).ProjectID s = true)
    (hop : (st.heap s).Send.closed = false) :
    ∃ st', unregister st s = some st' ∧
      (∀ project, isMember st' project s = false) ∧
      (st'.heap s).Send.closed = true ∧
      (st'.heap s).Send.buf = (st.heap s).Send.buf ∧
      ∀ t, t ≠ s →
        st'.heap t = st.heap t ∧
        ∀ project, isMember st' project t = isMember st project t := by
  obtain ⟨S, hS, hsS, h⟩ := unregister_member st s hs hop
  refine ⟨_, h, fun project => ?_, by simp [setSend], by simp [setSend], fun t ht => ?_⟩
  · rw [isMember_setKey]
    by_cases hp : project = (st.heap s).ProjectID
    · simp [hp]
    · rw [if_neg hp]
      by_contra hc
      exact hp (hinv project s (by simpa using hc))
  · refine ⟨by simp [setSend, ht], fun project => ?_⟩
    rw [isMember_setKey]
    by_cases hp : project = (st.heap s).ProjectID
    · subst hp; simp [isMember, hS, ht]
    · rw [if_neg hp]

theorem threeRegistered_inv : RegistryInv threeRegistered :=
  run_inv shopBlogHeap [.register 0, .register 1, .register 2] threeRegistered rfl

theorem setKey_setKey (m : Registry) (key : String) (v w : Finset ClientId) :
    setKey (setKey m key v) key w = setKey m key w := by
  funext k
  by_cases hk : k = key <;> simp [setKey, hk]

/-- The `register` branch in one assignment: the set stored under the client's project
(the empty set when there is no entry) gains the client. -/
theorem register_eq (st : HubState) (s : ClientId) :
    register st s =
      { clients := setKey st.clients (st.heap s).ProjectID
          (insert s ((st.clients (st.heap s).ProjectID).getD ∅)),
        heap := st.heap } := by
  cases h : st.clients (st.heap s).ProjectID with
  | none => simp [register, h, setKey, setKey_setKey]
  | some S => simp [register, h]

/-- C7. After the register step the session is in the set stored under its `ProjectID`
(an entry exists whatever the registry held before), the membership of every other session
in every project set is as before, client objects are untouched, and registering the
session a second time gives exactly the state that registering it once gives. -/
theorem C7_register_idempotent (st : HubState) (s : ClientId) :
    isMember (register st s) (st.heap s).ProjectID s = true ∧
    (register st s).clients (st.heap s).ProjectID ≠ none ∧
    (∀ t, t ≠ s → ∀ project, isMember (register st s) project t = isMember st project t) ∧
    (register st s).heap = st.heap ∧
    register (register st s) s = register st s := by
  refine ⟨by simp [isMember_register], ?_, fun t ht project => ?_, register_heap st s, ?_⟩
  · rw [register_eq]; simp [setKey]
  · rw [isMember_register]; simp [ht]
  · rw [register_eq (register st s) s, register_heap]
    rw [register_eq st s]
    simp [setKey, setKey_setKey]

/-- C8. Let s be a session of project P that is not in P's set.  A publish step for
(P, payload) followed by the register step for s leaves the client object of s (queue
contents included) exactly as it was before the publish, with s now registered under P;
the publish step returns whenever no session registered under P has a closed queue; and a
register step never changes any client object. -/
theorem C8_no_replay (st : HubState) (m : Message) (s : ClientId)
    (hP : (st.heap s).ProjectID = m.ProjectID)
    (hs : isMember st m.ProjectID s = false) :
    (MembersOpen st m.ProjectID → ∃ st1, broadcast st m = some st1) ∧
    (∀ st1, broadcast st m = some st1 →
      (register st1 s).heap s = st.heap s ∧
      isMember (register st1 s) m.ProjectID s = true) ∧
    (∀ (st1 : HubState) (t : ClientId), (register st1 t).heap = st1.heap) := by
  refine ⟨broadcast_isSome st m, fun st1 h => ?_, register_heap⟩
  obtain ⟨hheap, _, _⟩ := broadcast_effect st st1 m h
  have h1 : st1.heap s = st.heap s := by rw [hheap s]; simp [hs]
  refine ⟨by rw [register_heap, h1], ?_⟩
  rw [isMember_register, h1, hP]
  simp

theorem twoRegistered_open (project : String) : MembersOpen twoRegistered project := by
  intro c _
  simp only [twoRegistered, register_heap]
  exact shopBlogHeap_open c

/-- C8 with clients 0 ("shop") and 2 ("blog") registered: "X" is published to "shop", then
client 1 of "shop" registers; its queue is still empty. -/
theorem C8_no_replay_witness :
    (twoRegistered.heap 1).ProjectID = "shop" ∧ isMember twoRegistered "shop" 1 = false ∧
    ∃ st1, broadcast twoRegistered ⟨"shop", [88]⟩ = some st1 ∧
      (register st1 1).heap 1 = twoRegistered.heap 1 ∧
      ((register st1 1).heap 1).Send.buf = [] ∧
      isMember (register st1 1) "shop" 1 = true :=
  have h := C8_no_replay twoRegistered ⟨"shop", [88]⟩ 1 (by decide) (by decide)
  ⟨by decide, by decide,
    (h.1 (twoRegistered_open "shop")).elim fun st1 hst1 =>
      ⟨st1, hst1, (h.2.1 st1 hst1).1,
        by rw [(h.2.1 st1 hst1).1]; decide, (h.2.1 st1 hst1).2⟩⟩

/-- C9. Let the hub be in a state where sessions are only in the set of their own
project, and let the control loop process the messages `msgs` in order.  If s is in P's set
in every state the loop goes through and its queue is full in none of them, the queue of s
ends as its initial contents followed by the payloads of the messages for P, in the order
of `msgs`. -/
theorem C9_fifo_per_project (msgs : List Message) :
    ∀ (st st' : HubState) (s : ClientId) (P : String),
      RegistryInv st →
      publishAll st msgs = some st' →
      (∀ x ∈ states st (msgs.map Request.broadcast), isMember x P s = true) →
      (∀ x ∈ states st (msgs.map Request.broadcast),
        (x.heap s).Send.buf.length < (x.heap s).Send.cap) →
      (st'.heap s).Send.buf =
        (st.heap s).Send.buf ++
          ((msgs.filter fun m => m.ProjectID = P).map fun m => m.Payload) := by
  induction msgs with
  | nil =>
    intro st st' s P _ hrun _ _
    simp only [publishAll, List.map_nil, run, Option.some.injEq] at hrun
    subst hrun
    simp
  | cons m ms ih =>
    intro st st' s P hinv hrun hreg hroom
    cases hb : broadcast st m with
    | none => simp [publishAll, run, step, hb] at hrun
    | some st1 =>
      have hrun1 : publishAll st1 ms = some st' := by
        simpa [publishAll, run, step, hb] using hrun
      have hstates : states st ((m :: ms).map Request.broadcast)
          = st :: states st1 (ms.map Request.broadcast) := by
        simp [states, step, hb]
      rw [hstates] at hreg hroom
      have hs : isMember st P s = true := hreg st (List.mem_cons_self _ _)
      have hr := hroom st (List.mem_cons_self _ _)
      have ih1 := ih st1 st' s P (broadcast_inv st st1 m hb hinv) hrun1
        (fun x hx => hreg x (List.mem_cons_of_mem _ hx))
        (fun x hx => hroom x (List.mem_cons_of_mem _ hx))
      obtain ⟨hheap, _, _⟩ := broadcast_effect st st1 m hb
      rw [ih1, hheap s]
      by_cases hp : m.ProjectID = P
      · subst hp
        rw [if_pos hs, delivered_room _ _ hr]
        simp [List.filter_cons]
      · have hns : ¬ isMember st m.ProjectID s = true := by
          intro hc
          exact hp ((hinv _ s hc).trans (hinv _ s hs).symm)
        rw [if_neg hns]
        simp [List.filter_cons, hp]
/-- C9 on the spec's example: clients 0 and 1 under "shop" and client 2 under "blog", all
with empty queues of capacity 256; "X" then "Y" are published to "shop".  Clients 0 and 1
end with the queue [X, Y], client 2 with an empty queue. -/
theorem C9_fifo_per_project_witness :
    RegistryInv threeRegistered ∧
    publishAll threeRegistered shopXY = some afterXY ∧
    (∀ x ∈ states threeRegistered (shopXY.map Request.broadcast),
      isMember x "shop" 0 = true ∧ isMember x "shop" 1 = true ∧
        isMember x "blog" 2 = true) ∧
    (∀ x ∈ states threeRegistered (shopXY.map Request.broadcast),
      (x.heap 0).Send.buf.length < (x.heap 0).Send.cap ∧
        (x.heap 1).Send.buf.length < (x.heap 1).Send.cap ∧
        (x.heap 2).Send.buf.length < (x.heap 2).Send.cap) ∧
    (afterXY.heap 0).Send.buf = [[88], [89]] ∧
    (afterXY.heap 1).Send.buf = [[88], [89]] ∧
    (afterXY.heap 2).Send.buf = [] :=
  have hreg : ∀ x ∈ states threeRegistered (shopXY.map Request.broadcast),
      isMember x "shop" 0 = true ∧ isMember x "shop" 1 = true ∧
        isMember x "blog" 2 = true := by decide
  have hroom : ∀ x ∈ states threeRegistered (shopXY.map Request.broadcast),
      (x.heap 0).Send.buf.length < (x.heap 0).Send.cap ∧
        (x.heap 1).Send.buf.length < (x.heap 1).Send.cap ∧
        (x.heap 2).Send.buf.length < (x.heap 2).Send.cap := by decide
  ⟨threeRegistered_inv, rfl, hreg, hroom,
    C9_fifo_per_project shopXY threeRegistered afterXY 0 "shop" threeRegistered_inv rfl
      (fun x hx => (hreg x hx).1) (fun x hx => (hroom x hx).1),
    C9_fifo_per_project shopXY threeRegistered afterXY 1 "shop" threeRegistered_inv rfl
      (fun x hx => (hreg x hx).2.1) (fun x hx => (hroom x hx).2.1),
    C9_fifo_per_project shopXY threeRegistered afterXY 2 "blog" threeRegistered_inv rfl
      (fun x hx => (hreg x hx).2.2) (fun x hx => (hroom x hx).2.2)⟩

theorem broadcast_membersOpen (st st' : HubState) (m : Message)
    (h : broadcast st m = some st') : MembersOpen st' m.ProjectID := by
  obtain ⟨hheap, hmem, hopen⟩ := broadcast_effect st st' m h
  intro c hc
  rw [hmem] at hc
  simp only [ne_eq, not_true_eq_false, decide_False, Bool.false_or, Bool.and_eq_true,
    decide_eq_true_eq] at hc
  rw [hheap c, if_pos hc.1, delivered_room _ _ hc.2]
  exact hopen c hc.1

theorem publishTo_nil (st : HubState) (P : String) : publishTo st P [] = some st := rfl

theorem publishTo_cons (st : HubState) (P : String) (p : Payload) (ps : List Payload) :
    publishTo st P (p :: ps) = (broadcast st ⟨P, p⟩).bind fun st1 => publishTo st1 P ps := rfl

/-- Publishing to P when the client is in no project set: the loop returns and the
client is left alone. -/
theorem publishTo_absent (P : String) (A : ClientId) (ps : List Payload) :
    ∀ st : HubState, MembersOpen st P → (∀ project, isMember st project A = false) →
      ∃ st', publishTo st P ps = some st' ∧ st'.heap A = st.heap A ∧
        (∀ project, isMember st' project A = false) ∧ MembersOpen st' P := by
  induction ps with
  | nil => intro st hopen hA; exact ⟨st, rfl, rfl, hA, hopen⟩
  | cons p ps ih =>
    intro st hopen hA
    obtain ⟨st1, h1⟩ := broadcast_isSome st ⟨P, p⟩ hopen
    obtain ⟨hheap, hmem, _⟩ := broadcast_effect st st1 ⟨P, p⟩ h1
    have hA1 : ∀ project, isMember st1 project A = false := by
      intro project; rw [hmem, hA]; rfl
    obtain ⟨st', h', e1, e2, e3⟩ := ih st1 (broadcast_membersOpen st st1 ⟨P, p⟩ h1) hA1
    refine ⟨st', by rw [publishTo_cons, h1]; exact h', ?_, e2, e3⟩
    rw [e1, hheap A]
    simp [hA]

/-- Publishing to P when the client is registered under P with an open queue of
capacity `c` holding `b`. -/
theorem publishTo_member (P : String) (A : ClientId) (c : Nat) (ps : List Payload) :
    ∀ (st : HubState) (b : List Payload), RegistryInv st → MembersOpen st P →
      isMember st P A = true → (st.heap A).Send = { buf := b, cap := c, closed := false } →
      b.length ≤ c →
      ∃ st', publishTo st P ps = some st' ∧ MembersOpen st' P ∧
        (b.length + ps.length ≤ c →
          (st'.heap A).Send = { buf := b ++ ps, cap := c, closed := false } ∧
          isMember st' P A = true) ∧
        (c < b.length + ps.length →
          (st'.heap A).Send = { buf := (b ++ ps).take c, cap := c, closed := true } ∧
          ∀ project, isMember st' project A = false) := by
  induction ps with
  | nil =>
    intro st b _ hopen hA hq hb
    refine ⟨st, rfl, hopen, fun _ => ⟨by simpa using hq, hA⟩, fun h => ?_⟩
    simp at h; omega
  | cons p ps ih =>
    intro st b hinv hopen hA hq hb
    obtain ⟨st1, h1⟩ := broadcast_isSome st ⟨P, p⟩ hopen
    obtain ⟨hheap, hmem, _⟩ := broadcast_effect st st1 ⟨P, p⟩ h1
    have hopen1 := broadcast_membersOpen st st1 ⟨P, p⟩ h1
    have hlen : (st.heap A).Send.buf.length = b.length := by rw [hq]
    have hcap : (st.heap A).Send.cap = c := by rw [hq]
    by_cases hroom : b.length < c
    · have hr : (st.heap A).Send.buf.length < (st.heap A).Send.cap := by omega
      have hq1 : (st1.heap A).Send = { buf := b ++ [p], cap := c, closed := false } := by
        rw [hheap A]
        simp only [hA, if_true]
        rw [delivered_room _ _ hr, hq]
      have hA1 : isMember st1 P A = true := by
        rw [hmem, hA]; simp [hr]
      obtain ⟨st', h', e1, e2, e3⟩ := ih st1 (b ++ [p])
        (broadcast_inv st st1 ⟨P, p⟩ h1 hinv) hopen1 hA1 hq1 (by simp; omega)
      refine ⟨st', by rw [publishTo_cons, h1]; exact h', e1, fun h => ?_, fun h => ?_⟩
      · have := e2 (by simp at h ⊢; omega)
        simpa using this
      · have := e3 (by simp at h ⊢; omega)
        simpa using this
    · have hr : ¬ (st.heap A).Send.buf.length < (st.heap A).Send.cap := by omega
      have hbc : b.length = c := by omega
      have hq1 : (st1.heap A).Send = { buf := b, cap := c, closed := true } := by
        rw [hheap A]
        simp only [hA, if_true]
        rw [delivered_full _ _ hr, hq]
      have hA1 : ∀ project, isMember st1 project A = false := by
        intro project
        rw [hmem]
        by_cases hp : project = P
        · subst hp; simp [hr]
        · have : isMember st project A = false := by
            by_contra hc
            exact hp ((hinv project A (by simpa using hc)).trans (hinv P A hA).symm)
          simp [this]
      obtain ⟨st', h', e1, e2, e3⟩ := publishTo_absent P A ps st1 hopen1 hA1
      refine ⟨st', by rw [publishTo_cons, h1]; exact h', e3, fun h => ?_, fun _ => ?_⟩
      · simp at h; omega
      · refine ⟨?_, e2⟩
        rw [e1, hq1, List.take_append_of_le_length (by omega), ← hbc, List.take_length]

/-- Publishing a list of payloads to P when A is registered under P with an empty open
queue of capacity c, in a state with the registry invariant where no client registered
under P has a closed channel. -/
theorem publishTo_capacity (st : HubState) (P : String) (A : ClientId) (c : Nat)
    (payloads : List Payload) (_hc : 1 ≤ c)
    (hinv : RegistryInv st) (hopen : MembersOpen st P)
    (hA : isMember st P A = true)
    (hq : (st.heap A).Send = { buf := [], cap := c, closed := false }) :
    ∃ st', publishTo st P payloads = some st' ∧
      (payloads.length ≤ c →
        (st'.heap A).Send = { buf := payloads, cap := c, closed := false } ∧
        isMember st' P A = true) ∧
      (c < payloads.length →
        (st'.heap A).Send = { buf := payloads.take c, cap := c, closed := true } ∧
        ∀ project, isMember st' project A = false) ∧
      ∀ (p : Payload), ∃ st'', broadcast st' ⟨P, p⟩ = some st'' ∧
        ∀ t, isMember st' P t = false → st''.heap t = st'.heap t := by
  obtain ⟨st', h', e1, e2, e3⟩ :=
    publishTo_member P A c payloads st [] hinv hopen hA hq (Nat.zero_le c)
  refine ⟨st', h', fun h => ?_, fun h => ?_, fun p => ?_⟩
  · simpa using e2 (by simpa using h)
  · simpa using e3 (by simpa using h)
  · obtain ⟨st'', h''⟩ := broadcast_isSome st' ⟨P, p⟩ e1
    obtain ⟨hheap, _, _⟩ := broadcast_effect st' st'' ⟨P, p⟩ h''
    refine ⟨st'', h'', fun t ht => ?_⟩
    rw [hheap t]
    simp [ht]
theorem capTwoRegistered_inv : RegistryInv capTwoRegistered :=
  run_inv capTwoHeap [.register 0, .register 1] capTwoRegistered rfl

theorem capTwoRegistered_open (project : String) : MembersOpen capTwoRegistered project := by
  intro c _
  simp only [capTwoRegistered, register_heap]
  rfl

theorem membersOpen_register (st : HubState) (s : ClientId)
    (hs : (st.heap s).Send.closed = false) (hopen : ∀ P, MembersOpen st P) :
    ∀ P, MembersOpen (register st s) P := by
  intro P c hc
  rw [register_heap]
  rw [isMember_register] at hc
  by_cases h : P = (st.heap s).ProjectID ∧ c = s
  · rw [h.2]; exact hs
  · rw [if_neg h] at hc; exact hopen P c hc

theorem membersOpen_unregister (st st' : HubState) (s : ClientId)
    (h : unregister st s = some st') (hinv : RegistryInv st)
    (hopen : ∀ P, MembersOpen st P) : ∀ P, MembersOpen st' P := by
  by_cases hm : isMember st (st.heap s).ProjectID s = true
  · cases hop : (st.heap s).Send.closed with
    | true => rw [unregister_closed st s hm hop] at h; cases h
    | false =>
      obtain ⟨S, hS, hsS, h1⟩ := unregister_member st s hm hop
      rw [h1] at h; cases h
      intro P c hc
      rw [isMember_setKey] at hc
      by_cases hcs : c = s
      · subst hcs
        by_cases hp : P = (st.heap c).ProjectID
        · rw [if_pos hp] at hc; simp at hc
        · rw [if_neg hp] at hc; exact absurd (hinv P c hc) hp
      · have hmem : isMember st P c = true := by
          by_cases hp : P = (st.heap s).ProjectID
          · rw [if_pos hp] at hc
            rw [hp]
            exact (isMember_iff _ _ _).2 ⟨S, hS, Finset.mem_of_mem_erase (by simpa using hc)⟩
          · rw [if_neg hp] at hc; exact hc
        simp only [setSend, if_neg hcs]
        exact hopen P c hmem
  · rw [unregister_absent st s (by simpa using hm)] at h
    cases h; exact hopen

theorem membersOpen_broadcast (st st' : HubState) (m : Message)
    (h : broadcast st m = some st') (hinv : RegistryInv st)
    (hopen : ∀ P, MembersOpen st P) : ∀ P, MembersOpen st' P := by
  obtain ⟨hheap, hmem, _⟩ := broadcast_effect st st' m h
  intro P c hc
  rw [hmem] at hc
  simp only [Bool.and_eq_true, Bool.or_eq_true, decide_eq_true_eq] at hc
  obtain ⟨hc1, hc2⟩ := hc
  rw [hheap c]
  by_cases hcm : isMember st m.ProjectID c = true
  · have hP : P = m.ProjectID := (hinv P c hc1).trans (hinv _ c hcm).symm
    rcases hc2 with hne | hroom
    · exact absurd hP hne
    · rw [if_pos hcm, delivered_room _ _ hroom]
      exact hopen _ c hcm
  · rw [if_neg hcm]; exact hopen P c hc1

/-- A step whose request is not the registration of a closed client keeps the
two registry invariants and does not panic. -/
theorem step_safe (st : HubState) (r : Request)
    (hr : ∀ c, r = Request.register c → (st.heap c).Send.closed = false)
    (hinv : RegistryInv st) (hopen : ∀ P, MembersOpen st P) :
    ∃ st', step st r = some st' ∧ RegistryInv st' ∧ ∀ P, MembersOpen st' P := by
  cases r with
  | register s =>
    exact ⟨register st s, rfl, register_inv st s hinv,
      membersOpen_register st s (hr s rfl) hopen⟩
  | unregister s =>
    have hsome : ∃ st', unregister st s = some st' := by
      by_cases hm : isMember st (st.heap s).ProjectID s = true
      · obtain ⟨S, _, _, h1⟩ := unregister_member st s hm (hopen _ s hm)
        exact ⟨_, h1⟩
      · exact ⟨st, unregister_absent st s (by simpa using hm)⟩
    obtain ⟨st', h⟩ := hsome
    exact ⟨st', h, unregister_inv st st' s h hinv, membersOpen_unregister st st' s h hinv hopen⟩
  | broadcast m =>
    obtain ⟨st', h⟩ := broadcast_isSome st m (hopen m.ProjectID)
    exact ⟨st', h, broadcast_inv st st' m h hinv, membersOpen_broadcast st st' m h hinv hopen⟩

theorem registersOpen_cons (st : HubState) (r : Request) (rs : List Request)
    (h : registersOpen st (r :: rs) = true) :
    (∀ c, r = Request.register c → (st.heap c).Send.closed = false) ∧
    ∀ st', step st r = some st' → registersOpen st' rs = true := by
  simp only [registersOpen, Bool.and_eq_true] at h
  refine ⟨fun c hc => ?_, fun st' hst' => ?_⟩
  · subst hc; simpa using h.1
  · simpa [hst'] using h.2

theorem run_safe (reqs : List Request) :
    ∀ st : HubState, registersOpen st reqs = true → RegistryInv st →
      (∀ P, MembersOpen st P) → ∃ st', run st reqs = some st' := by
  induction reqs with
  | nil => intro st _ _ _; exact ⟨st, rfl⟩
  | cons r rs ih =>
    intro st hreg hinv hopen
    obtain ⟨hr, hrest⟩ := registersOpen_cons st r rs hreg
    obtain ⟨st1, h1, hinv1, hopen1⟩ := step_safe st r hr hinv hopen
    obtain ⟨st', h'⟩ := ih st1 (hrest st1 h1) hinv1 hopen1
    exact ⟨st', by simp [run, h1, h']⟩

theorem states_safe (reqs : List Request) :
    ∀ st0 : HubState, registersOpen st0 reqs = true → RegistryInv st0 →
      (∀ P, MembersOpen st0 P) →
      ∀ st ∈ states st0 reqs, RegistryInv st ∧ ∀ P, MembersOpen st P := by
  induction reqs with
  | nil =>
    intro st0 _ hinv hopen st hst
    simp only [states, List.mem_singleton] at hst
    subst hst; exact ⟨hinv, hopen⟩
  | cons r rs ih =>
    intro st0 hreg hinv hopen st hst
    obtain ⟨hr, hrest⟩ := registersOpen_cons st0 r rs hreg
    obtain ⟨st1, h1, hinv1, hopen1⟩ := step_safe st0 r hr hinv hopen
    simp only [states, h1, List.mem_cons] at hst
    rcases hst with rfl | hst
    · exact ⟨hinv, hopen⟩
    · exact ih st1 (hrest st1 h1) hinv1 hopen1 st hst

theorem emptyHub_open (heap : Heap) (P : String) : MembersOpen (emptyHub heap) P := by
  intro c hc
  simp [isMember, emptyHub] at hc

/-- No step changes the capacity of a channel, and a buffer that fits its capacity
still fits after the step. -/
theorem step_capacity (st st' : HubState) (r : Request) (h : step st r = some st')
    (c : ClientId) :
    (st'.heap c).Send.cap = (st.heap c).Send.cap ∧
    ((st.heap c).Send.buf.length ≤ (st.heap c).Send.cap →
      (st'.heap c).Send.buf.length ≤ (st'.heap c).Send.cap) := by
  cases r with
  | register s =>
    simp only [step, Option.some.injEq] at h
    subst h
    rw [register_heap]
    exact ⟨rfl, id⟩
  | unregister s =>
    simp only [step] at h
    by_cases hm : isMember st (st.heap s).ProjectID s = true
    · cases hop : (st.heap s).Send.closed with
      | true => rw [unregister_closed st s hm hop] at h; cases h
      | false =>
        obtain ⟨S, _, _, h1⟩ := unregister_member st s hm hop
        rw [h1] at h; cases h
        by_cases hcs : c = s
        · subst hcs; simp [setSend]
        · simp [setSend, hcs]
    · rw [unregister_absent st s (by simpa using hm)] at h
      cases h; exact ⟨rfl, id⟩
  | broadcast m =>
    simp only [step] at h
    obtain ⟨hheap, _, _⟩ := broadcast_effect st st' m h
    rw [hheap c]
    by_cases hcm : isMember st m.ProjectID c = true
    · rw [if_pos hcm]
      by_cases hroom : (st.heap c).Send.buf.length < (st.heap c).Send.cap
      · rw [delivered_room _ _ hroom]
        refine ⟨rfl, fun _ => ?_⟩
        simp only [List.length_append, List.length_singleton]
        omega
      · rw [delivered_full _ _ hroom]
        exact ⟨rfl, id⟩
    · rw [if_neg hcm]; exact ⟨rfl, id⟩

theorem states_capacity (reqs : List Request) :
    ∀ (st0 st : HubState), st ∈ states st0 reqs → ∀ c,
      (st.heap c).Send.cap = (st0.heap c).Send.cap ∧
      ((st0.heap c).Send.buf.length ≤ (st0.heap c).Send.cap →
        (st.heap c).Send.buf.length ≤ (st.heap c).Send.cap) := by
  induction reqs with
  | nil =>
    intro st0 st hst c
    simp only [states, List.mem_singleton] at hst
    subst hst; exact ⟨rfl, id⟩
  | cons r rs ih =>
    intro st0 st hst c
    simp only [states, List.mem_cons] at hst
    rcases hst with rfl | hst
    · exact ⟨rfl, id⟩
    · cases hstep : step st0 r with
      | none => simp [hstep] at hst
      | some st1 =>
        simp only [hstep] at hst
        obtain ⟨h1, h2⟩ := ih st1 st hst c
        obtain ⟨k1, k2⟩ := step_capacity st0 st1 r hstep c
        exact ⟨h1.trans k1, fun h => h2 (k2 h)⟩

/-- C17. Start from the empty hub with client objects whose buffers fit their capacity,
and let every register request carry a client whose queue is open when the request is
received (only the steps of the loop touch the queues).  Then in every state the loop goes
through, every client that is in a project set has an open queue holding at most capacity
payloads, the capacity being the one it was built with (so at most 256 payloads for the
256 slots `RealtimeEndpoint` allocates), and every client whose queue is closed is in no
project set. -/
theorem C17_members_open_and_bounded (heap0 : Heap) (reqs : List Request) (st : HubState)
    (hreg : registersOpen (emptyHub heap0) reqs = true)
    (hfit : ∀ c, (heap0 c).Send.buf.length ≤ (heap0 c).Send.cap)
    (hst : st ∈ states (emptyHub heap0) reqs) :
    (∀ P c, isMember st P c = true →
      (st.heap c).Send.closed = false ∧
      (st.heap c).Send.buf.length ≤ (st.heap c).Send.cap ∧
      (st.heap c).Send.cap = (heap0 c).Send.cap ∧
      ((heap0 c).Send.cap = 256 → (st.heap c).Send.buf.length ≤ 256)) ∧
    (∀ c, (st.heap c).Send.closed = true → ∀ P, isMember st P c = false) := by
  obtain ⟨_, hopen⟩ := states_safe reqs (emptyHub heap0) hreg (emptyHub_inv heap0)
    (emptyHub_open heap0) st hst
  refine ⟨fun P c hc => ?_, fun c hcl P => ?_⟩
  · obtain ⟨h1, h2⟩ := states_capacity reqs (emptyHub heap0) st hst c
    have hle := h2 (hfit c)
    have hcap : (st.heap c).Send.cap = (heap0 c).Send.cap := h1
    exact ⟨hopen P c hc, hle, hcap, fun h256 => by omega⟩
  · by_contra hc
    have := hopen P c (by simpa using hc)
    rw [hcl] at this
    cases this
theorem shopBlogHeap_fits (c : ClientId) :
    (shopBlogHeap c).Send.buf.length ≤ (shopBlogHeap c).Send.cap := by
  unfold shopBlogHeap; split <;> decide

/-- C17 on the state after `exampleRequests`, all clients built with 256 slots. -/
theorem C17_members_open_and_bounded_witness :
    registersOpen (emptyHub shopBlogHeap) exampleRequests = true ∧
    (∀ c, (shopBlogHeap c).Send.buf.length ≤ (shopBlogHeap c).Send.cap) ∧
    afterExample ∈ states (emptyHub shopBlogHeap) exampleRequests ∧
    (∀ P c, isMember afterExample P c = true →
      (afterExample.heap c).Send.closed = false ∧
      (afterExample.heap c).Send.buf.length ≤ (afterExample.heap c).Send.cap ∧
      (afterExample.heap c).Send.cap = (shopBlogHeap c).Send.cap ∧
      ((shopBlogHeap c).Send.cap = 256 → (afterExample.heap c).Send.buf.length ≤ 256)) ∧
    (∀ c, (afterExample.heap c).Send.closed = true →
      ∀ P, isMember afterExample P c = false) :=
  have hmem : afterExample ∈ states (emptyHub shopBlogHeap) exampleRequests :=
    run_mem_states _ _ _ rfl
  ⟨by decide, shopBlogHeap_fits, hmem,
    C17_members_open_and_bounded shopBlogHeap exampleRequests afterExample (by decide)
      shopBlogHeap_fits hmem⟩

theorem listenOne_eq (decode : JsonDecoder) (payload : Payload) :
    listenOne decode (.notification payload) =
      (schemaOf decode payload).map fun v => { ProjectID := v, Payload := payload } := by
  simp only [listenOne, unmarshalMap, schemaOf]
  cases h : decode payload with
  | none => rfl
  | some value =>
    cases value with
    | null => simp [mapIndex]
    | bool b => rfl
    | number literal => rfl
    | string s => rfl
    | array items => rfl
    | object members =>
      simp only
      cases hm : mapIndex "schema" members with
      | none => rfl
      | some member => cases member <;> rfl

theorem listen_append (decode : JsonDecoder) (rs : List WaitResult) :
    ∀ sent : List Message,
      listen decode rs sent = sent ++ rs.filterMap (listenOne decode) := by
  induction rs with
  | nil => intro sent; simp [listen]
  | cons r rs ih =>
    intro sent
    cases h : listenOne decode r with
    | none => simp [listen, h, ih, List.filterMap_cons]
    | some message => simp [listen, h, ih, List.filterMap_cons]

/-- C12. For a notification whose payload decodes as a JSON object with a string "schema"
member v, one turn of the listener loop sends a message with `ProjectID` v and the
notification's payload, byte for byte, as `Payload`; the loop on that notification alone
sends exactly this one message. -/
theorem C12_listener_forwards (decode : JsonDecoder) (payload : Payload)
    (members : List (String × JsonValue)) (v : String)
    (hobj : decode payload = some (.object members))
    (hschema : mapIndex "schema" members = some (.string v)) :
    listenOne decode (.notification payload) = some { ProjectID := v, Payload := payload } ∧
    listen decode [.notification payload] [] = [{ ProjectID := v, Payload := payload }] := by
  have h : listenOne decode (.notification payload)
      = some { ProjectID := v, Payload := payload } := by
    simp [listenOne, unmarshalMap, hobj, hschema]
  exact ⟨h, by simp [listen, h]⟩

/-- C12 for the payload `{"schema":"shop"}`. -/
theorem C12_listener_forwards_witness :
    exampleDecoder shopPayload = some (.object [("schema", .string "shop")]) ∧
    mapIndex "schema" [("schema", JsonValue.string "shop")] = some (.string "shop") ∧
    listenOne exampleDecoder (.notification shopPayload)
      = some { ProjectID := "shop", Payload := shopPayload } ∧
    listen exampleDecoder [.notification shopPayload] []
      = [{ ProjectID := "shop", Payload := shopPayload }] :=
  ⟨rfl, rfl, C12_listener_forwards exampleDecoder shopPayload _ "shop" rfl rfl⟩

/-- C13. The messages the listener loop sends for a list of results of
`WaitForNotification` are, in the same order, those of the notifications whose payload is
a JSON object with a string-valued "schema" member, each with that string as `ProjectID`
and the payload as `Payload`; so the payloads sent are exactly the sub-list of well-formed
payloads.  A wait error, a payload that is not valid JSON, one that is not a JSON object,
one without "schema" and one with a non-string "schema" each send nothing, and the loop
goes on with the results that follow. -/
theorem C13_listener_drops_malformed (decode : JsonDecoder) :
    (∀ results : List WaitResult,
      listen decode results [] = results.filterMap fun r =>
        match r with
        | .error => none
        | .notification p =>
          (schemaOf decode p).map fun v => { ProjectID := v, Payload := p }) ∧
    (∀ payloads : List Payload,
      (listen decode (payloads.map WaitResult.notification) []).map (fun m => m.Payload)
        = payloads.filter fun p => (schemaOf decode p).isSome) ∧
    (∀ (rs1 rs2 : List WaitResult) (sent : List Message),
      listen decode (rs1 ++ rs2) sent = listen decode rs2 (listen decode rs1 sent)) ∧
    (∀ p, decode p = none → listenOne decode (.notification p) = none) ∧
    (∀ p value, decode p = some value → (∀ members, value ≠ .object members) →
      listenOne decode (.notification p) = none) ∧
    (∀ p members, decode p = some (.object members) → mapIndex "schema" members = none →
      listenOne decode (.notification p) = none) ∧
    (∀ p members x, decode p = some (.object members) →
      mapIndex "schema" members = some x → (∀ v, x ≠ .string v) →
      listenOne decode (.notification p) = none) := by
  have hone : ∀ r : WaitResult, listenOne decode r =
      match r with
      | .error => none
      | .notification p =>
        (schemaOf decode p).map fun v => { ProjectID := v, Payload := p } := by
    intro r
    cases r with
    | error => rfl
    | notification p => exact listenOne_eq decode p
  refine ⟨fun results => ?_, fun payloads => ?_, fun rs1 rs2 sent => ?_, fun p h => ?_,
    fun p value h hno => ?_, fun p members h hm => ?_, fun p members x h hm hx => ?_⟩
  · rw [listen_append]
    simp only [List.nil_append]
    congr 1
    funext r
    exact hone r
  · rw [listen_append]
    simp only [List.nil_append]
    induction payloads with
    | nil => rfl
    | cons p ps ih =>
      simp only [List.map_cons, List.filterMap_cons, List.filter_cons, listenOne_eq]
      cases hs : schemaOf decode p with
      | none => simpa using ih
      | some v => simpa using ih
  · simp [listen_append, List.filterMap_append]
  · rw [listenOne_eq]; simp [schemaOf, h]
  · rw [listenOne_eq]
    cases value with
    | object members => exact absurd rfl (hno members)
    | null => simp [schemaOf, h]
    | bool b => simp [schemaOf, h]
    | number l => simp [schemaOf, h]
    | string s => simp [schemaOf, h]
    | array items => simp [schemaOf, h]
  · rw [listenOne_eq]; simp [schemaOf, h, hm]
  · rw [listenOne_eq]
    cases x with
    | string v => exact absurd rfl (hx v)
    | null => simp [schemaOf, h, hm]
    | bool b => simp [schemaOf, h, hm]
    | number l => simp [schemaOf, h, hm]
    | array items => simp [schemaOf, h, hm]
    | object ms => simp [schemaOf, h, hm]

/-- C13 on seven results: a broken text, a well-formed payload, a wait error, an array, an
object without "schema", an object with a numeric "schema", and a well-formed payload
again.  Two messages are sent, for the two well-formed payloads. -/
theorem C13_listener_drops_malformed_witness :
    listen exampleDecoder
        [.notification brokenPayload, .notification shopPayload, .error,
          .notification arrayPayload, .notification noSchemaPayload,
          .notification numberSchemaPayload, .notification shopPayload] []
      = [{ ProjectID := "shop", Payload := shopPayload },
         { ProjectID := "shop", Payload := shopPayload }] ∧
    listenOne exampleDecoder (.notification brokenPayload) = none ∧
    listenOne exampleDecoder (.notification arrayPayload) = none ∧
    listenOne exampleDecoder (.notification noSchemaPayload) = none ∧
    listenOne exampleDecoder (.notification numberSchemaPayload) = none :=
  have h := C13_listener_drops_malformed exampleDecoder
  ⟨(h.1 _).trans rfl,
    h.2.2.2.1 brokenPayload rfl,
    h.2.2.2.2.1 arrayPayload _ rfl (fun _ hc => by cases hc),
    h.2.2.2.2.2.1 noSchemaPayload _ rfl rfl,
    h.2.2.2.2.2.2 numberSchemaPayload _ _ rfl rfl (fun _ hc => by cases hc)⟩

theorem tenantProtected_valid (parse : JwtParse) (c : TenantRequest) (claims : MapClaims)
    (hv : ValidBearer parse c claims) :
    TenantProtected parse c =
      match claims "role" with
      | some (.string "admin") =>
        .next { user_id := claims "sub", project_id := c.project }
      | _ =>
        match claims "aud" with
        | some (.string tokenProject) =>
          if c.project ≠ tokenProject then
            .reject 403 "Access denied: Token not valid for this project"
          else .next { user_id := claims "sub", project_id := tokenProject }
        | _ => .reject 403 "Access denied: Token not valid for this project" := by
  obtain ⟨hlen, hb, token, hparse, hvalid, hclaims⟩ := hv
  have hne : c.authorization ≠ [] := by
    intro h; rw [h] at hlen; simp at hlen
  simp only [TenantProtected, hne, if_false, hlen, hb, and_self, if_true, hparse, hvalid,
    hclaims, Bool.not_true, Bool.false_eq_true]

/-- C14. For a request with a validly signed, unexpired bearer token whose role claim is
not the string "admin", `TenantProtected` calls `c.Next()` if and only if the aud claim is
a string equal to the `:project` route parameter; otherwise it answers 403 without calling
`c.Next()`.  When it calls `c.Next()`, the `project_id` local is the requested project. -/
theorem C14_tenant_audience (parse : JwtParse) (c : TenantRequest) (claims : MapClaims)
    (hv : ValidBearer parse c claims)
    (hrole : claims "role" ≠ some (.string "admin")) :
    ((∃ locals, TenantProtected parse c = .next locals) ↔
      claims "aud" = some (.string c.project)) ∧
    (claims "aud" ≠ some (.string c.project) →
      TenantProtected parse c =
        .reject 403 "Access denied: Token not valid for this project") ∧
    (∀ locals, TenantProtected parse c = .next locals → locals.project_id = c.project) := by
  have hmain : TenantProtected parse c =
      match claims "aud" with
      | some (.string tokenProject) =>
        if c.project ≠ tokenProject then
          .reject 403 "Access denied: Token not valid for this project"
        else .next { user_id := claims "sub", project_id := tokenProject }
      | _ => .reject 403 "Access denied: Token not valid for this project" := by
    rw [tenantProtected_valid parse c claims hv]
    split
    · next h => exact absurd h hrole
    · rfl
  rw [hmain]
  cases haud : claims "aud" with
  | none => simp
  | some x =>
    cases x with
    | string tokenProject =>
      by_cases hp : c.project = tokenProject
      · subst hp; simp
      · have hp' : tokenProject ≠ c.project := fun h => hp h.symm
        simp [hp, hp']
    | null => simp
    | bool b => simp
    | number l => simp
    | array items => simp
    | object ms => simp

theorem shopRequest_valid : ValidBearer exampleJwtParse shopRequest shopClaims :=
  ⟨by decide, by decide, { Valid := true, Claims := some shopClaims }, rfl, rfl, rfl⟩

theorem blogRequest_valid : ValidBearer exampleJwtParse blogRequest shopClaims :=
  ⟨by decide, by decide, { Valid := true, Claims := some shopClaims }, rfl, rfl, rfl⟩

theorem shopClaims_role : shopClaims "role" ≠ some (.string "admin") := by
  simp [shopClaims]

/-- C14 for a tenant token with aud "shop": passed on for the route of project "shop" with
`project_id` "shop", answered 403 for the route of project "blog". -/
theorem C14_tenant_audience_witness :
    ValidBearer exampleJwtParse shopRequest shopClaims ∧
    ValidBearer exampleJwtParse blogRequest shopClaims ∧
    shopClaims "role" ≠ some (.string "admin") ∧
    (∃ locals, TenantProtected exampleJwtParse shopRequest = .next locals) ∧
    (∀ locals, TenantProtected exampleJwtParse shopRequest = .next locals →
      locals.project_id = "shop") ∧
    TenantProtected exampleJwtParse blogRequest =
      .reject 403 "Access denied: Token not valid for this project" :=
  have h1 := C14_tenant_audience exampleJwtParse shopRequest shopClaims shopRequest_valid
    shopClaims_role
  have h2 := C14_tenant_audience exampleJwtParse blogRequest shopClaims blogRequest_valid
    shopClaims_role
  ⟨shopRequest_valid, blogRequest_valid, shopClaims_role, h1.1.2 rfl, h1.2.2,
    h2.2.1 (by simp [shopClaims, blogRequest])⟩

theorem badRune_eq_false (c : Char) : badRune c = false ↔ slugChar c := by
  simp only [badRune, slugChar, Bool.and_eq_false_iff, Bool.or_eq_false_iff,
    decide_eq_false_iff_not, not_lt, bne_eq_false_iff_eq, gt_iff_lt]
  tauto

theorem runesValid_iff (l : List Char) : runesValid l = true ↔ ∀ c ∈ l, slugChar c := by
  induction l with
  | nil => simp [runesValid]
  | cons r rs ih =>
    simp only [runesValid, List.mem_cons, forall_eq_or_imp]
    cases hb : badRune r with
    | true =>
      have : ¬ slugChar r := fun h => by
        rw [← badRune_eq_false, hb] at h; cases h
      simp [this]
    | false =>
      have : slugChar r := (badRune_eq_false r).1 hb
      simp [this, ih]

theorem isValidSlug_iff (s : String) :
    isValidSlug s = true ↔
      (1 ≤ s.utf8ByteSize ∧ s.utf8ByteSize ≤ 63) ∧ ∀ c ∈ s.data, slugChar c := by
  unfold isValidSlug
  by_cases h : s.utf8ByteSize = 0 ∨ s.utf8ByteSize > 63
  · rw [if_pos h]
    constructor
    · intro hc; cases hc
    · rintro ⟨⟨h1, h2⟩, _⟩; omega
  · rw [if_neg h, runesValid_iff]
    constructor
    · intro hc; exact ⟨by omega, hc⟩
    · exact fun hc => hc.2

theorem updateLoop_valid (entries : List (String × JsonValue)) :
    ∀ (updates : List String) (values : List JsonValue) (i : Nat),
      (∀ kv ∈ entries, isValidIdentifier kv.1 = true) →
      updateLoop entries (updates, values, i) =
        some (updates ++ (entries.enumFrom i).map (fun p => p.2.1 ++ " = $" ++ toString p.1),
          values ++ entries.map (fun kv => kv.2), i + entries.length) := by
  induction entries with
  | nil => intro updates values i _; simp [updateLoop]
  | cons kv rest ih =>
    intro updates values i hvalid
    obtain ⟨k, v⟩ := kv
    have hk : isValidIdentifier k = true := hvalid (k, v) (List.mem_cons_self _ _)
    simp only [updateLoop, hk, Bool.not_true, Bool.false_eq_true, if_false]
    rw [ih _ _ _ (fun kv hkv => hvalid kv (List.mem_cons_of_mem _ hkv))]
    simp [List.enumFrom_cons, Nat.add_assoc, Nat.add_comm 1]

theorem updateLoop_invalid (entries : List (String × JsonValue)) :
    ∀ (acc : List String × List JsonValue × Nat),
      (∃ kv ∈ entries, isValidIdentifier kv.1 = false) →
      updateLoop entries acc = none := by
  induction entries with
  | nil => intro acc h; simp at h
  | cons kv rest ih =>
    intro acc h
    obtain ⟨k, v⟩ := kv
    obtain ⟨updates, values, i⟩ := acc
    cases hk : isValidIdentifier k with
    | false => simp [updateLoop, hk]
    | true =>
      simp only [updateLoop, hk, Bool.not_true, Bool.false_eq_true, if_false]
      apply ih
      obtain ⟨kv', hmem, hbad⟩ := h
      rcases List.mem_cons.1 hmem with rfl | hmem
      · simp [hk] at hbad
      · exact ⟨kv', hmem, hbad⟩
theorem setList_getElem? (entries : List (String × JsonValue)) (j : Nat) :
    (setList entries)[j]? =
      (entries[j]?).map fun kv => kv.1 ++ " = $" ++ toString (j + 1) := by
  simp only [setList, List.getElem?_map, List.getElem?_enumFrom, Option.map_map]
  cases entries[j]? with
  | none => rfl
  | some kv => simp [Nat.add_comm]

/-- C16. For a request with a non-empty `id` and a body that parses to n entries:
if every key passes `isValidIdentifier`, `handleUpdate` issues exactly one query; its SET
list has n entries, the j-th being the j-th key ranged over followed by ` = $j`, so each
placeholder 1..n is used once; the j-th bound value is the value of that key; the WHERE
clause uses `$(n+1)`; and there are n+1 bound values, the last one the id.  If some key
fails `isValidIdentifier`, the answer is 400 and no query is issued. -/
theorem C16_update_placeholders (queryOk : String → List JsonValue → Bool) (id : String)
    (entries : List (String × JsonValue)) (fullTableName : String) (hid : id ≠ "") :
    ((∀ kv ∈ entries, isValidIdentifier kv.1 = true) →
      ∃ values : List JsonValue,
        (handleUpdate queryOk id (some entries) fullTableName).issued =
          [("UPDATE " ++ fullTableName ++ " SET " ++ ", ".intercalate (setList entries) ++
              " WHERE id = $" ++ toString (entries.length + 1) ++
              " RETURNING to_jsonb(" ++ fullTableName ++ ".*)", values)] ∧
        (setList entries).length = entries.length ∧
        (entries.enumFrom 1).map (fun p => p.1) = List.range' 1 entries.length ∧
        (∀ j, (setList entries)[j]? =
          (entries[j]?).map fun kv => kv.1 ++ " = $" ++ toString (j + 1)) ∧
        (∀ j, j < entries.length → values[j]? = (entries[j]?).map fun kv => kv.2) ∧
        values.length = entries.length + 1 ∧
        values[entries.length]? = some (.string id) ∧
        values.getLast? = some (.string id)) ∧
    ((∃ kv ∈ entries, isValidIdentifier kv.1 = false) →
      (handleUpdate queryOk id (some entries) fullTableName).status = 400 ∧
      (handleUpdate queryOk id (some entries) fullTableName).issued = []) := by
  constructor
  · intro hvalid
    refine ⟨entries.map (fun kv => kv.2) ++ [.string id], ?_, ?_, ?_, ?_, ?_, ?_, ?_, ?_⟩
    · have hloop := updateLoop_valid entries [] [] 1 hvalid
      simp only [List.nil_append] at hloop
      simp only [handleUpdate, hid, if_false, hloop, setList, Nat.add_comm 1]
      split <;> rfl
    · simp [setList]
    · exact List.enumFrom_map_fst 1 entries
    · exact setList_getElem? entries
    · intro j hj
      rw [List.getElem?_append_left (by simpa using hj), List.getElem?_map]
    · simp
    · rw [List.getElem?_append_right (by simp)]
      simp
    · simp
  · intro hbad
    have hloop := updateLoop_invalid entries ([], [], 1) hbad
    simp [handleUpdate, hid, hloop]
/-- C16 on `PUT /shop/users?id=42` with the body `{"name":"Ann","age":7}`, and with a body
one of whose keys is not an identifier. -/
theorem C16_update_placeholders_witness :
    "42" ≠ "" ∧ (∀ kv ∈ exampleEntries, isValidIdentifier kv.1 = true) ∧
    (∃ kv ∈ badEntries, isValidIdentifier kv.1 = false) ∧
    (∃ values : List JsonValue,
      (handleUpdate (fun _ _ => true) "42" (some exampleEntries) "shop.users").issued =
        [("UPDATE shop.users SET name = $1, age = $2 WHERE id = $3 " ++
            "RETURNING to_jsonb(shop.users.*)", values)] ∧
      values.length = 3 ∧ values.getLast? = some (.string "42")) ∧
    (handleUpdate (fun _ _ => true) "42" (some badEntries) "shop.users").status = 400 ∧
    (handleUpdate (fun _ _ => true) "42" (some badEntries) "shop.users").issued = [] :=
  have hvalid : ∀ kv ∈ exampleEntries, isValidIdentifier kv.1 = true := by decide
  have hbad : ∃ kv ∈ badEntries, isValidIdentifier kv.1 = false := by decide
  have h1 := (C16_update_placeholders (fun _ _ => true) "42" exampleEntries "shop.users"
    (by decide)).1 hvalid
  have h2 := (C16_update_placeholders (fun _ _ => true) "42" badEntries "shop.users"
    (by decide)).2 hbad
  ⟨by decide, hvalid, hbad,
    h1.elim fun values hv => ⟨values, hv.1.trans rfl, hv.2.2.2.2.2.1, hv.2.2.2.2.2.2.2⟩,
    h2.1, h2.2⟩

/-- A step closes only channels of registered clients, and adds to the project sets only
the client of a `register` request. -/
theorem step_closed_member (st st' : HubState) (r : Request) (h : step st r = some st') :
    (∀ c, (st'.heap c).Send.closed = true →
      (st.heap c).Send.closed = true ∨ ∃ P, isMember st P c = true) ∧
    (∀ P c, isMember st' P c = true →
      isMember st P c = true ∨ r = Request.register c) := by
  cases r with
  | register s =>
    simp only [step, Option.some.injEq] at h
    subst h
    refine ⟨fun c hc => Or.inl (by rwa [register_heap] at hc), fun P c hc => ?_⟩
    rw [isMember_register] at hc
    by_cases hp : P = (st.heap s).ProjectID ∧ c = s
    · right; rw [hp.2]
    · rw [if_neg hp] at hc; exact Or.inl hc
  | unregister s =>
    simp only [step] at h
    by_cases hm : isMember st (st.heap s).ProjectID s = true
    · cases hop : (st.heap s).Send.closed with
      | true => rw [unregister_closed st s hm hop] at h; cases h
      | false =>
        obtain ⟨S, hS, _, h1⟩ := unregister_member st s hm hop
        rw [h1] at h; cases h
        refine ⟨fun c hc => ?_, fun P c hc => ?_⟩
        · by_cases hcs : c = s
          · subst hcs; exact Or.inr ⟨_, hm⟩
          · left; simpa [setSend, hcs] using hc
        · left
          rw [isMember_setKey] at hc
          by_cases hp : P = (st.heap s).ProjectID
          · rw [if_pos hp] at hc
            rw [hp]
            exact (isMember_iff _ _ _).2
              ⟨S, hS, Finset.mem_of_mem_erase (by simpa using hc)⟩
          · rw [if_neg hp] at hc; exact hc
    · rw [unregister_absent st s (by simpa using hm)] at h
      cases h
      exact ⟨fun c hc => Or.inl hc, fun P c hc => Or.inl hc⟩
  | broadcast m =>
    simp only [step] at h
    obtain ⟨hheap, hmem, _⟩ := broadcast_effect st st' m h
    refine ⟨fun c hc => ?_, fun P c hc => ?_⟩
    · by_cases hcm : isMember st m.ProjectID c = true
      · exact Or.inr ⟨_, hcm⟩
      · left; rw [hheap c, if_neg hcm] at hc; exact hc
    · left
      rw [hmem] at hc
      simp only [Bool.and_eq_true] at hc
      exact hc.1

theorem registersOpen_of_unseen (reqs : List Request) :
    ∀ (st : HubState) (seen : List ClientId),
      (∀ c, (st.heap c).Send.closed = true → c ∈ seen) →
      (∀ P c, isMember st P c = true → c ∈ seen) →
      (registrations reqs).Nodup → (∀ c ∈ registrations reqs, c ∉ seen) →
      registersOpen st reqs = true := by
  induction reqs with
  | nil => intro st seen _ _ _ _; rfl
  | cons r rs ih =>
    intro st seen hcl hmem hnd hnew
    simp only [registersOpen, Bool.and_eq_true]
    constructor
    · cases r with
      | register s =>
        simp only [Bool.not_eq_true']
        by_contra hc
        have hs : s ∈ seen := hcl s (by simpa using hc)
        exact hnew s (by simp [registrations]) hs
      | unregister s => rfl
      | broadcast m => rfl
    · cases hstep : step st r with
      | none => rfl
      | some st1 =>
        obtain ⟨k1, k2⟩ := step_closed_member st st1 r hstep
        cases r with
        | register s =>
          simp only [registrations, List.nodup_cons] at hnd
          apply ih st1 (s :: seen)
          · intro c hc
            rcases k1 c hc with h | ⟨P, h⟩
            · exact List.mem_cons_of_mem _ (hcl c h)
            · exact List.mem_cons_of_mem _ (hmem P c h)
          · intro P c hc
            rcases k2 P c hc with h | h
            · exact List.mem_cons_of_mem _ (hmem P c h)
            · cases h; exact List.mem_cons_self _ _
          · exact hnd.2
          · intro c hc hin
            rcases List.mem_cons.1 hin with rfl | hin
            · exact hnd.1 hc
            · exact hnew c (by simp [registrations, hc]) hin
        | unregister s =>
          apply ih st1 seen
          · intro c hc
            rcases k1 c hc with h | ⟨P, h⟩
            · exact hcl c h
            · exact hmem P c h
          · intro P c hc
            rcases k2 P c hc with h | h
            · exact hmem P c h
            · cases h
          · simpa [registrations] using hnd
          · intro c hc; exact hnew c (by simpa [registrations] using hc)
        | broadcast m =>
          apply ih st1 seen
          · intro c hc
            rcases k1 c hc with h | ⟨P, h⟩
            · exact hcl c h
            · exact hmem P c h
          · intro P c hc
            rcases k2 P c hc with h | h
            · exact hmem P c h
            · cases h
          · simpa [registrations] using hnd
          · intro c hc; exact hnew c (by simpa [registrations] using hc)

/-- Requests as `RealtimeEndpoint` sends them, each client built with an open channel
and sent on `register` once, register only open clients. -/
theorem registersOpen_of_fresh (heap0 : Heap) (reqs : List Request)
    (hopen : ∀ c, (heap0 c).Send.closed = false)
    (hnd : (registrations reqs).Nodup) :
    registersOpen (emptyHub heap0) reqs = true := by
  apply registersOpen_of_unseen reqs (emptyHub heap0) []
  · intro c hc
    have := hopen c
    simp only [emptyHub] at hc
    rw [hc] at this; cases this
  · intro P c hc
    simp [isMember, emptyHub] at hc
  · exact hnd
  · intro c _; simp
/-- The states the hub can be in: from the empty registry, on requests whose register
requests carry an open client, every state the loop goes through has the registry
invariant and only open channels among its registered clients. -/
theorem hubState_safe (heap0 : Heap) (reqs : List Request) (st : HubState)
    (hreg : registersOpen (emptyHub heap0) reqs = true)
    (hst : st ∈ states (emptyHub heap0) reqs) :
    RegistryInv st ∧ ∀ P, MembersOpen st P :=
  states_safe reqs (emptyHub heap0) hreg (emptyHub_inv heap0) (emptyHub_open heap0) st hst

theorem threeRegistered_state :
    threeRegistered ∈
      states (emptyHub shopBlogHeap) [.register 0, .register 1, .register 2] :=
  run_mem_states _ _ _ rfl

theorem fullRegistered_state :
    fullRegistered ∈ states (emptyHub fullHeap) [.register 0, .register 1] :=
  run_mem_states _ _ _ rfl

theorem capTwoRegistered_state :
    capTwoRegistered ∈ states (emptyHub capTwoHeap) [.register 0, .register 1] :=
  run_mem_states _ _ _ rfl

/-- C2. Let `st` be a hub state: a state the control loop goes through from the empty
registry on requests in which every register request carries a client whose queue is open
(`RealtimeEndpoint`, the only sender on `register`, sends each newly built client once).
For every Change Event (P, payload) the publish step returns, and every session that was
registered under P with room in its queue has its previous queue contents followed by
payload (capacity and closed flag untouched) and is still registered under P. -/
theorem C2_broadcast_delivers (heap0 : Heap) (reqs : List Request) (st : HubState)
    (hreg : registersOpen (emptyHub heap0) reqs = true)
    (hst : st ∈ states (emptyHub heap0) reqs) (m : Message) :
    ∃ st', broadcast st m = some st' ∧
      ∀ s, isMember st m.ProjectID s = true →
        (st.heap s).Send.buf.length < (st.heap s).Send.cap →
          (st'.heap s).Send.buf = (st.heap s).Send.buf ++ [m.Payload] ∧
          (st'.heap s).Send.cap = (st.heap s).Send.cap ∧
          (st'.heap s).Send.closed = (st.heap s).Send.closed ∧
          isMember st' m.ProjectID s = true :=
  broadcast_delivers st m ((hubState_safe heap0 reqs st hreg hst).2 m.ProjectID)

/-- C2 on the spec's example hub, publishing "X" to "shop": clients 0 and 1 hold "X". -/
theorem C2_broadcast_delivers_witness :
    registersOpen (emptyHub shopBlogHeap) [.register 0, .register 1, .register 2] = true ∧
    threeRegistered ∈
      states (emptyHub shopBlogHeap) [.register 0, .register 1, .register 2] ∧
    ∃ st', broadcast threeRegistered ⟨"shop", [88]⟩ = some st' ∧
      (st'.heap 0).Send.buf = [[88]] ∧ (st'.heap 1).Send.buf = [[88]] ∧
      isMember st' "shop" 0 = true ∧ isMember st' "shop" 1 = true :=
  ⟨by decide, threeRegistered_state,
    (C2_broadcast_delivers shopBlogHeap _ threeRegistered (by decide) threeRegistered_state
      ⟨"shop", [88]⟩).elim fun st' h =>
      ⟨st', h.1, (h.2 0 (by decide) (by decide)).1, (h.2 1 (by decide) (by decide)).1,
        (h.2 0 (by decide) (by decide)).2.2.2, (h.2 1 (by decide) (by decide)).2.2.2⟩⟩

/-- C4. Let `st` be a hub state (as in C2) and s a session registered under P whose queue
holds capacity-many payloads.  The publish step for (P, payload) returns; afterwards s is
in no project set, its queue is closed and holds what it held, without payload, and every
session registered under P whose queue had room has its old contents followed by payload
and is still registered. -/
theorem C4_slow_consumer_evicted (heap0 : Heap) (reqs : List Request) (st : HubState)
    (hreg : registersOpen (emptyHub heap0) reqs = true)
    (hst : st ∈ states (emptyHub heap0) reqs) (m : Message) (s : ClientId)
    (hs : isMember st m.ProjectID s = true)
    (hfull : (st.heap s).Send.buf.length = (st.heap s).Send.cap) :
    ∃ st', broadcast st m = some st' ∧
      (∀ project, isMember st' project s = false) ∧
      (st'.heap s).Send.closed = true ∧
      (st'.heap s).Send.buf = (st.heap s).Send.buf ∧
      ∀ t, isMember st m.ProjectID t = true →
        (st.heap t).Send.buf.length < (st.heap t).Send.cap →
          (st'.heap t).Send.buf = (st.heap t).Send.buf ++ [m.Payload] ∧
          isMember st' m.ProjectID t = true :=
  broadcast_evicts st m s (hubState_safe heap0 reqs st hreg hst).1
    ((hubState_safe heap0 reqs st hreg hst).2 m.ProjectID) hs hfull

/-- C4 with clients 0 and 1 registered under "shop", client 0 holding 2 payloads in a queue
of capacity 2 and client 1 none: publishing "X" evicts client 0 and reaches client 1. -/
theorem C4_slow_consumer_evicted_witness :
    registersOpen (emptyHub fullHeap) [.register 0, .register 1] = true ∧
    fullRegistered ∈ states (emptyHub fullHeap) [.register 0, .register 1] ∧
    isMember fullRegistered "shop" 0 = true ∧
    (fullRegistered.heap 0).Send.buf.length = (fullRegistered.heap 0).Send.cap ∧
    ∃ st', broadcast fullRegistered ⟨"shop", [88]⟩ = some st' ∧
      (∀ project, isMember st' project 0 = false) ∧
      (st'.heap 0).Send.closed = true ∧
      (st'.heap 0).Send.buf = [[1], [2]] ∧
      (st'.heap 1).Send.buf = [[88]] ∧ isMember st' "shop" 1 = true :=
  ⟨by decide, fullRegistered_state, by decide, by decide,
    (C4_slow_consumer_evicted fullHeap _ fullRegistered (by decide) fullRegistered_state
      ⟨"shop", [88]⟩ 0 (by decide) (by decide)).elim fun st' h =>
      ⟨st', h.1, h.2.1, h.2.2.1, h.2.2.2.1,
        (h.2.2.2.2 1 (by decide) (by decide)).1, (h.2.2.2.2 1 (by decide) (by decide)).2⟩⟩

/-- C5. The unregister step for a session that is not in the set of its project returns
the state it was given, so it closes nothing.  In every hub state (as in C2) the unregister
step for any session s returns a state, and the step applied to that state returns it
unchanged: unregistering twice yields the state that unregistering once yields.  In that
state s is in no project set; when s was registered its queue was open before and is
closed after the first step, which is the only one of the two that reaches `close`. -/
theorem C5_unregister_idempotent (heap0 : Heap) (reqs : List Request) (st : HubState)
    (hreg : registersOpen (emptyHub heap0) reqs = true)
    (hst : st ∈ states (emptyHub heap0) reqs) (s : ClientId) :
    (∀ (x : HubState) (c : ClientId),
      isMember x (x.heap c).ProjectID c = false → unregister x c = some x) ∧
    ∃ st1, unregister st s = some st1 ∧ unregister st1 s = some st1 ∧
      ((unregister st s).bind fun x => unregister x s) = unregister st s ∧
      (∀ project, isMember st1 project s = false) ∧
      (isMember st (st.heap s).ProjectID s = true →
        (st.heap s).Send.closed = false ∧ (st1.heap s).Send.closed = true ∧
        (st1.heap s).Send.buf = (st.heap s).Send.buf) ∧
      (isMember st (st.heap s).ProjectID s = false → st1 = st) := by
  obtain ⟨hinv, hopen⟩ := hubState_safe heap0 reqs st hreg hst
  refine ⟨unregister_absent, ?_⟩
  by_cases hm : isMember st (st.heap s).ProjectID s = true
  · have hop := hopen _ s hm
    obtain ⟨st1, h1, hnone, hcl, hbuf, _⟩ := unregister_removes st s hinv hm hop
    have h2 : unregister st1 s = some st1 := unregister_absent st1 s (hnone _)
    refine ⟨st1, h1, h2, by rw [h1]; exact h2, hnone, fun _ => ⟨hop, hcl, hbuf⟩, fun h => ?_⟩
    rw [hm] at h; cases h
  · have hm' : isMember st (st.heap s).ProjectID s = false := by simpa using hm
    have h1 := unregister_absent st s hm'
    refine ⟨st, h1, h1, by rw [h1]; exact h1, fun project => ?_, fun h => absurd h hm,
      fun _ => rfl⟩
    by_contra hc
    have hp := hinv project s (by simpa using hc)
    rw [hp] at hc
    exact hc hm'

/-- C5 on the spec's example hub: client 0, registered, is unregistered twice; client 5
was never registered. -/
theorem C5_unregister_idempotent_witness :
    registersOpen (emptyHub shopBlogHeap) [.register 0, .register 1, .register 2] = true ∧
    threeRegistered ∈
      states (emptyHub shopBlogHeap) [.register 0, .register 1, .register 2] ∧
    isMember threeRegistered (threeRegistered.heap 0).ProjectID 0 = true ∧
    unregister threeRegistered 5 = some threeRegistered ∧
    ∃ st1, unregister threeRegistered 0 = some st1 ∧ unregister st1 0 = some st1 ∧
      (∀ project, isMember st1 project 0 = false) ∧
      (threeRegistered.heap 0).Send.closed = false ∧ (st1.heap 0).Send.closed = true :=
  have h := C5_unregister_idempotent shopBlogHeap _ threeRegistered (by decide)
    threeRegistered_state 0
  ⟨by decide, threeRegistered_state, by decide, h.1 threeRegistered 5 (by decide),
    h.2.elim fun st1 k =>
      ⟨st1, k.1, k.2.1, k.2.2.2.1, (k.2.2.2.2.1 (by decide)).1,
        (k.2.2.2.2.1 (by decide)).2.1⟩⟩

/-- C6. In every hub state (as in C2) in which session s is in the set of its project, the
unregister step for s returns; afterwards s is in no project set, its queue is closed with
the contents it had, and the client object and the memberships of every other session are
as before. -/
theorem C6_unregister_removes (heap0 : Heap) (reqs : List Request) (st : HubState)
    (hreg : registersOpen (emptyHub heap0) reqs = true)
    (hst : st ∈ states (emptyHub heap0) reqs) (s : ClientId)
    (hs : isMember st (st.heap s).ProjectID s = true) :
    ∃ st', unregister st s = some st' ∧
      (∀ project, isMember st' project s = false) ∧
      (st'.heap s).Send.closed = true ∧
      (st'.heap s).Send.buf = (st.heap s).Send.buf ∧
      ∀ t, t ≠ s →
        st'.heap t = st.heap t ∧
        ∀ project, isMember st' project t = isMember st project t :=
  unregister_removes st s (hubState_safe heap0 reqs st hreg hst).1 hs
    ((hubState_safe heap0 reqs st hreg hst).2 _ s hs)

/-- C6 on the spec's example hub, unregistering client 0: clients 1 and 2 stay. -/
theorem C6_unregister_removes_witness :
    registersOpen (emptyHub shopBlogHeap) [.register 0, .register 1, .register 2] = true ∧
    threeRegistered ∈
      states (emptyHub shopBlogHeap) [.register 0, .register 1, .register 2] ∧
    isMember threeRegistered (threeRegistered.heap 0).ProjectID 0 = true ∧
    ∃ st', unregister threeRegistered 0 = some st' ∧
      (∀ project, isMember st' project 0 = false) ∧
      (st'.heap 0).Send.closed = true ∧
      isMember st' "shop" 1 = true ∧ isMember st' "blog" 2 = true ∧
      st'.heap 1 = threeRegistered.heap 1 :=
  ⟨by decide, threeRegistered_state, by decide,
    (C6_unregister_removes shopBlogHeap _ threeRegistered (by decide) threeRegistered_state 0
      (by decide)).elim fun st' h =>
      ⟨st', h.1, h.2.1, h.2.2.1,
        ((h.2.2.2.2 1 (by decide)).2 "shop").trans (by decide),
        ((h.2.2.2.2 2 (by decide)).2 "blog").trans (by decide),
        (h.2.2.2.2 1 (by decide)).1⟩⟩
/-- C10. Let `st` be a hub state (as in C2), c ≥ 1, and A a session registered under P with
an empty, open queue of capacity c.  Any list of payloads published to P is processed.  If
it has at most c payloads, A holds all of them, in order, and is still registered; if it
has more, A is in no project set and its queue is closed and holds exactly the first c
payloads, however many publishes followed the (c+1)-th.  A further publish to P returns
and changes no client that is not registered under P at that moment. -/
theorem C10_evicted_after_capacity (heap0 : Heap) (reqs : List Request) (st : HubState)
    (hreg : registersOpen (emptyHub heap0) reqs = true)
    (hst : st ∈ states (emptyHub heap0) reqs)
    (P : String) (A : ClientId) (c : Nat) (payloads : List Payload) (hc : 1 ≤ c)
    (hA : isMember st P A = true)
    (hq : (st.heap A).Send = { buf := [], cap := c, closed := false }) :
    ∃ st', publishTo st P payloads = some st' ∧
      (payloads.length ≤ c →
        (st'.heap A).Send = { buf := payloads, cap := c, closed := false } ∧
        isMember st' P A = true) ∧
      (c < payloads.length →
        (st'.heap A).Send = { buf := payloads.take c, cap := c, closed := true } ∧
        ∀ project, isMember st' project A = false) ∧
      ∀ (p : Payload), ∃ st'', broadcast st' ⟨P, p⟩ = some st'' ∧
        ∀ t, isMember st' P t = false → st''.heap t = st'.heap t :=
  publishTo_capacity st P A c payloads hc (hubState_safe heap0 reqs st hreg hst).1
    ((hubState_safe heap0 reqs st hreg hst).2 P) hA hq

/-- C10 on the spec's example: session A (client 0) has capacity 2.  After two publishes to
"shop" it holds both payloads and is registered; after three, and after four, it is evicted
with its closed queue holding the first two. -/
theorem C10_evicted_after_capacity_witness :
    registersOpen (emptyHub capTwoHeap) [.register 0, .register 1] = true ∧
    capTwoRegistered ∈ states (emptyHub capTwoHeap) [.register 0, .register 1] ∧
    isMember capTwoRegistered "shop" 0 = true ∧
    (capTwoRegistered.heap 0).Send = { buf := [], cap := 2, closed := false } ∧
    (∃ st', publishTo capTwoRegistered "shop" [[88], [89]] = some st' ∧
      (st'.heap 0).Send = { buf := [[88], [89]], cap := 2, closed := false } ∧
      isMember st' "shop" 0 = true) ∧
    (∃ st', publishTo capTwoRegistered "shop" [[88], [89], [90]] = some st' ∧
      (st'.heap 0).Send = { buf := [[88], [89]], cap := 2, closed := true } ∧
      ∀ project, isMember st' project 0 = false) ∧
    (∃ st', publishTo capTwoRegistered "shop" [[88], [89], [90], [91]] = some st' ∧
      (st'.heap 0).Send = { buf := [[88], [89]], cap := 2, closed := true } ∧
      ∀ project, isMember st' project 0 = false) :=
  have h := fun payloads =>
    C10_evicted_after_capacity capTwoHeap _ capTwoRegistered (by decide)
      capTwoRegistered_state "shop" 0 2 payloads (by decide) (by decide) (by decide)
  ⟨by decide, capTwoRegistered_state, by decide, by decide,
    (h [[88], [89]]).elim fun st' k => ⟨st', k.1, k.2.1 (by decide)⟩,
    (h [[88], [89], [90]]).elim fun st' k => ⟨st', k.1, k.2.2.1 (by decide)⟩,
    (h [[88], [89], [90], [91]]).elim fun st' k => ⟨st', k.1, k.2.2.1 (by decide)⟩⟩

/-- C11. The control loop never fails on what it can receive.  Applied to the initially
empty hub, every finite list of register, unregister and publish requests in which each
register request carries a session whose queue is open when the request is received is
processed to the end: no step panics, that is, no step closes a closed queue or sends on a
closed queue.  This covers every list in which the sessions are created with an open queue
and each is sent on `register` at most once, which is how `RealtimeEndpoint`, the only
sender on `register`, uses the hub; unregister and publish requests are unconstrained. -/
theorem C11_loop_never_fails (heap0 : Heap) (reqs : List Request) :
    (registersOpen (emptyHub heap0) reqs = true →
      ∃ st, run (emptyHub heap0) reqs = some st) ∧
    ((∀ c, (heap0 c).Send.closed = false) → (registrations reqs).Nodup →
      ∃ st, run (emptyHub heap0) reqs = some st) := by
  have h : registersOpen (emptyHub heap0) reqs = true →
      ∃ st, run (emptyHub heap0) reqs = some st :=
    fun hreg => run_safe reqs (emptyHub heap0) hreg (emptyHub_inv heap0) (emptyHub_open heap0)
  exact ⟨h, fun hopen hnd => h (registersOpen_of_fresh heap0 reqs hopen hnd)⟩

/-- C11 on `exampleRequests`: three sessions created open and registered once each, one of
them unregistered twice, two publishes. -/
theorem C11_loop_never_fails_witness :
    (∀ c, (shopBlogHeap c).Send.closed = false) ∧
    (registrations exampleRequests).Nodup ∧
    ∃ st, run (emptyHub shopBlogHeap) exampleRequests = some st :=
  ⟨shopBlogHeap_open, by decide,
    (C11_loop_never_fails shopBlogHeap exampleRequests).2 shopBlogHeap_open (by decide)⟩
/-- C15, amended. `isValidSlug s` is true exactly when the byte length of `s` is between 1
and 63 and every character of `s` is an ASCII letter, an ASCII digit or an underscore.  For
a slug on which it is false, neither handler makes any `tx.Exec` call, so no schema SQL is
built or run; `DeleteProjectHandler` answers 400 without touching the database, and
`CreateProjectHandler` answers 400 whenever its transaction could be begun. -/
theorem C15_slug_validation :
    (∀ s : String, isValidSlug s = true ↔
      (1 ≤ s.utf8ByteSize ∧ s.utf8ByteSize ≤ 63) ∧ ∀ c ∈ s.data, slugChar c) ∧
    (∀ (db : Db) (req : CreateRequest), isValidSlug req.Slug = false →
      (∀ sql args, DbCall.exec sql args ∉ (CreateProjectHandler db (some req)).calls) ∧
      (db.beginOk = true → (CreateProjectHandler db (some req)).status = 400)) ∧
    (∀ (db : Db) (slug : String), isValidSlug slug = false →
      (∀ sql args, DbCall.exec sql args ∉ (DeleteProjectHandler db slug).calls) ∧
      DeleteProjectHandler db slug = { status := 400, calls := [] }) := by
  refine ⟨isValidSlug_iff, fun db req h => ?_, fun db slug h => ?_⟩
  · cases hb : db.beginOk <;> simp [CreateProjectHandler, deferRollback, hb, h]
  · simp [DeleteProjectHandler, h]

/-- C15 (amended) on the slug "a-b" with the database up, and on the slug "shop_1". -/
theorem C15_slug_validation_witness :
    isValidSlug "a-b" = false ∧
    (CreateProjectHandler dbUp (some { Name := "Shop", Slug := "a-b" })).status = 400 ∧
    (∀ sql args, DbCall.exec sql args ∉
      (CreateProjectHandler dbUp (some { Name := "Shop", Slug := "a-b" })).calls) ∧
    DeleteProjectHandler dbUp "a-b" = { status := 400, calls := [] } ∧
    ((1 ≤ "shop_1".utf8ByteSize ∧ "shop_1".utf8ByteSize ≤ 63) ∧
      ∀ c ∈ "shop_1".data, slugChar c) :=
  ⟨by decide,
    (C15_slug_validation.2.1 dbUp { Name := "Shop", Slug := "a-b" } (by decide)).2 rfl,
    (C15_slug_validation.2.1 dbUp { Name := "Shop", Slug := "a-b" } (by decide)).1,
    (C15_slug_validation.2.2 dbUp "a-b" (by decide)).2,
    (C15_slug_validation.1 "shop_1").1 (by decide)⟩

/-- C15 as stated fails: "a-b" is not a valid slug, yet with a database on which no
transaction can be begun `CreateProjectHandler` answers 500, not 400. -/
theorem C15_counterexample :
    isValidSlug "a-b" = false ∧
    (CreateProjectHandler dbDown (some { Name := "Shop", Slug := "a-b" })).status = 500 := by
  decide

end Hanbase
